import Mathlib

/-!
WT1227C data editor: tabular import, table store and JSON persistence.

A shallow embedding of `src/dataeditorwidget.cpp` (class `DataEditorWidget`), of
`src/datecolumndialog.cpp` (class `DataColumnDialog`) and of the parts of the Qt classes
they drive, followed by theorems about the import pipeline (`loadTextBasedFile`, `loadJson`,
`loadFileInternal`), the persistence pair (`serializeModelToJson`,
`deserializeJsonToModel`), the table mutations (`onAddRow`, `onAddCol`, `onDeleteRow`,
`onDeleteCol`) and the dialog (`updateUnitsForType`, `onTypeChanged`,
`onLoadPresetClicked`, `getColumnDefinitions`).

Conventions of the embedding:

* a `QString` is a list of characters; every operation used by the source only inspects
  characters of the basic multilingual plane, where UTF-16 code units and characters agree;
  `isEmpty`, `count(ch)` and `length` are the list functions of the same names;
* a `QStandardItem*` cell is an `Option QString`: `none` is the null pointer (no item), and
  `some t` is an item whose text is `t`;
* C++ `int` indices are natural numbers (all indices built by the source are non-negative);
  where the source computes a possibly negative length (`f.length()-2`) an `Int` is used;
* reading through a null item pointer has no defined result, so `serializeModelToJson`
  returns an `Option`;
* a signal of a combo box is modelled by calling the connected slot right where Qt emits
  it; `QString::toLower` is a parameter of the preset inference, since its case table is
  not part of the repository;
* loops over a `QTextStream` carry a fuel argument and return `none` when it runs out; the
  entry point supplies `content.length` and the theorems show that this always suffices.
-/

namespace WT1227C

/-! ## Strings -/

/-- Text value: the characters of a `QString` in order. -/
abbrev QString := List Char

namespace QChar

/-- Unicode general categories `Zs`, `Zl` and `Zp` above U+00A0, as consulted by
`QChar::isSpace_helper`. -/
def isSpace_helper (ucs4 : Nat) : Bool :=
  ucs4 == 0x1680 || (0x2000 ≤ ucs4 && ucs4 ≤ 0x200a) || ucs4 == 0x2028 || ucs4 == 0x2029
    || ucs4 == 0x202f || ucs4 == 0x205f || ucs4 == 0x3000

/-- Whitespace test of Qt, `QChar::isSpace`: space, U+0009..U+000D, U+0085, U+00A0 and the
Unicode separators. -/
def isSpace (c : Char) : Bool :=
  let ucs4 := c.toNat
  ucs4 == 0x20 || (ucs4 ≤ 0x0d && 0x09 ≤ ucs4)
    || (127 < ucs4 && (ucs4 == 0x85 || ucs4 == 0xa0 || isSpace_helper ucs4))

end QChar

namespace QString

/-- Whitespace removal at both ends, `QString::trimmed`. -/
def trimmed (s : QString) : QString :=
  ((s.dropWhile QChar.isSpace).reverse.dropWhile QChar.isSpace).reverse

/-- Test `QString::startsWith(QChar)`: false on the empty string. -/
def startsWith (s : QString) (c : Char) : Bool :=
  match s with
  | [] => false
  | x :: _ => x == c

/-- Test `QString::endsWith(QChar)`: false on the empty string. -/
def endsWith (s : QString) (c : Char) : Bool :=
  match s.getLast? with
  | none => false
  | some x => x == c

/-- Substring `QString::mid(position, n)` with the clamping of
`QContainerImplHelper::mid`: a negative `n`, or one that reaches past the end, means
"everything from `position`". -/
def mid (s : QString) (position n : Int) : QString :=
  let originalLength : Int := (List.length s : Int)
  if position > originalLength then []
  else if position < 0 then
    if n < 0 ∨ n + position ≥ originalLength then s
    else if n + position ≤ 0 then []
    else s.take (n + position).toNat
  else
    let n1 := if n < 0 ∨ n > originalLength - position then originalLength - position else n
    (s.drop position.toNat).take n1.toNat

/-- Fields of `QString::split(QChar)` with the default `KeepEmptyParts`: the empty string
splits into one empty field. -/
def split : QString → Char → List QString
  | [], _ => [[]]
  | c :: cs, sep =>
    if c = sep then [] :: split cs sep
    else
      match split cs sep with
      | [] => [[c]]
      | f :: fs => (c :: f) :: fs

/-- First section, `QString::section(sep, 0, 0)`: the text before the first `sep`. -/
def section0 (s : QString) (sep : Char) : QString := s.takeWhile (fun c => c != sep)

end QString

/-! ## Text stream over a string -/

/-- State of a `QTextStream` opened on a `QString`: the characters not yet read. -/
structure QTextStream where
  /-- Unread characters. -/
  buffer : QString
deriving DecidableEq, Repr

namespace QTextStream

/-- Test `QTextStream::atEnd`. -/
def atEnd (s : QTextStream) : Bool := s.buffer.isEmpty

/-- Removal of one carriage return at the end of a scanned line (the `delimSize`
adjustment of `QTextStreamPrivate::scan`). -/
def chopCR (line : QString) : QString :=
  if line.getLast? = some '\r' then line.dropLast else line

/-- Line read `QTextStream::readLine`: the characters before the next line feed, without
the line feed and without a carriage return right before it (or right before the end of the
data); the stream moves past the line feed. -/
def readLine (s : QTextStream) : QString × QTextStream :=
  (chopCR (s.buffer.takeWhile (fun c => c != '\n')),
   ⟨(s.buffer.dropWhile (fun c => c != '\n')).drop 1⟩)

end QTextStream

/-! ## JSON values -/

/-- JSON value `QJsonValue`. The payload of a number is never inspected by the code under
study, so it is kept abstractly as an integer mantissa. -/
inductive QJsonValue where
  | null : QJsonValue
  | bool (b : Bool) : QJsonValue
  | double (d : Int) : QJsonValue
  | string (s : QString) : QJsonValue
  | array (a : List QJsonValue) : QJsonValue
  | object (o : List (QString × QJsonValue)) : QJsonValue
  | undefined : QJsonValue

/-- JSON array `QJsonArray`. -/
abbrev QJsonArray := List QJsonValue

/-- JSON object `QJsonObject`: its members, at most one per key. -/
abbrev QJsonObject := List (QString × QJsonValue)

namespace QJsonObject

/-- Test `QJsonObject::contains`. -/
def contains (o : QJsonObject) (key : QString) : Bool := o.any (fun kv => kv.1 = key)

/-- Read access `QJsonObject::operator[] const` (that is `value(key)`): `undefined` when the
key is absent. -/
def value (o : QJsonObject) (key : QString) : QJsonValue :=
  match o.find? (fun kv => kv.1 = key) with
  | some kv => kv.2
  | none => QJsonValue.undefined

/-- Write access `obj[key] = v`: replaces the member with that key, or adds one. -/
def insert (o : QJsonObject) (key : QString) (v : QJsonValue) : QJsonObject :=
  if o.any (fun kv => kv.1 = key) then o.map (fun kv => if kv.1 = key then (key, v) else kv)
  else o ++ [(key, v)]

end QJsonObject

namespace QJsonValue

/-- Conversion `QJsonValue::toObject`: the empty object for a value that is no object. -/
def toObject : QJsonValue → QJsonObject
  | object o => o
  | _ => []

/-- Conversion `QJsonValue::toArray`: the empty array for a value that is no array. -/
def toArray : QJsonValue → QJsonArray
  | array a => a
  | _ => []

/-- Conversion `QJsonValue::toString`: the empty string for a value that is no string. -/
def toString : QJsonValue → QString
  | string s => s
  | _ => []

end QJsonValue

/-- Parsed document `QJsonDocument`: `null` (invalid or unparsable input), an object root or
an array root. -/
inductive QJsonDocument where
  | null : QJsonDocument
  | object (o : QJsonObject) : QJsonDocument
  | array (a : QJsonArray) : QJsonDocument

namespace QJsonDocument

/-- Test `QJsonDocument::isArray`. -/
def isArray : QJsonDocument → Bool
  | array _ => true
  | _ => false

/-- Accessor `QJsonDocument::array`: the empty array when the root is no array. -/
def toArray : QJsonDocument → QJsonArray
  | array a => a
  | _ => []

end QJsonDocument

/-! ## Column metadata -/

/-- Column types, `enum class WellTestColumnType` of `dataeditorwidget.h`. -/
inductive WellTestColumnType where
  | SerialNumber | Date | Time | TimeOfDay | Pressure | Temperature | FlowRate
  | Depth | Viscosity | Density | Permeability | Porosity | WellRadius
  | SkinFactor | Distance | Volume | PressureDrop | Custom
deriving DecidableEq, Repr

/-- Column metadata record, `struct ColumnDefinition`; the defaults are those of its
constructor (`type(Custom), isRequired(false), decimalPlaces(3)`, both strings empty). -/
structure ColumnDefinition where
  /-- Display label. -/
  name : QString := []
  /-- Semantic type. -/
  type : WellTestColumnType := WellTestColumnType.Custom
  /-- Unit text. -/
  unit : QString := []
  /-- Required flag. -/
  isRequired : Bool := false
  /-- Decimal places. -/
  decimalPlaces : Int := 3
deriving DecidableEq, Repr

/-! ## The item model -/

/-- Contents of a `QStandardItemModel`: the horizontal header items (one slot per column,
`none` when no header item was set) and the rows of cell items (`none` is a cell without
an item). The column count is the number of header slots. -/
structure QStandardItemModel where
  /-- Horizontal header items, one slot per column. -/
  columnHeaderItems : List (Option QString)
  /-- Rows of cell items. -/
  children : List (List (Option QString))
deriving DecidableEq, Repr

namespace QStandardItemModel

/-- Count `QStandardItemModel::columnCount`. -/
def columnCount (m : QStandardItemModel) : Nat := m.columnHeaderItems.length

/-- Count `QStandardItemModel::rowCount`. -/
def rowCount (m : QStandardItemModel) : Nat := m.children.length

/-- Reset `QStandardItemModel::clear`: no rows, no columns, no header items. -/
def clear (_m : QStandardItemModel) : QStandardItemModel := ⟨[], []⟩

/-- Cell access `QStandardItemModel::item(row, column)`: `none` (null) outside the table or
where no item was set. -/
def item (m : QStandardItemModel) (row column : Nat) : Option QString :=
  ((m.children.getD row []).getD column none)

/-- Header text `headerData(section, Qt::Horizontal).toString()`: empty outside the table,
the header item's text when there is one, and otherwise the default of
`QAbstractItemModel::headerData`, the decimal numeral of `section + 1`. -/
def headerData (m : QStandardItemModel) (sec : Nat) : QString :=
  match m.columnHeaderItems.get? sec with
  | none => []
  | some (some t) => t
  | some none => (Nat.repr (sec + 1)).toList

/-- Resize `QStandardItem::setColumnCount` on the root item: new columns are appended
without items, surplus columns are removed from the end. -/
def setColumnCount (m : QStandardItemModel) (columns : Nat) : QStandardItemModel :=
  if m.columnCount < columns then
    ⟨m.columnHeaderItems ++ List.replicate (columns - m.columnCount) none,
     m.children.map (fun r => r ++ List.replicate (columns - m.columnCount) none)⟩
  else
    ⟨m.columnHeaderItems.take columns, m.children.map (fun r => r.take columns)⟩

/-- Header assignment `QStandardItemModel::setHorizontalHeaderLabels`: the column count is
raised to the number of labels if it is smaller, then the first header items receive the
labels; later header items are left alone. -/
def setHorizontalHeaderLabels (m : QStandardItemModel) (labels : List QString) :
    QStandardItemModel :=
  let m1 := if m.columnCount < labels.length then m.setColumnCount labels.length else m
  ⟨labels.map some ++ m1.columnHeaderItems.drop labels.length, m1.children⟩

/-- Row insertion `QStandardItemModel::insertRow(row, items)`: the column count is raised to
the number of items if it is smaller; then, unless `row` is beyond the row count, a row is
inserted whose first cells are the items and whose other cells have no item. -/
def insertRow (m : QStandardItemModel) (row : Nat) (items : List QString) :
    QStandardItemModel :=
  let m1 := if m.columnCount < items.length then m.setColumnCount items.length else m
  if row > m1.rowCount then m1
  else
    let cells := (items.map some ++ List.replicate (m1.columnCount - items.length) none).take
      m1.columnCount
    ⟨m1.columnHeaderItems, m1.children.take row ++ cells :: m1.children.drop row⟩

/-- Row append `QStandardItemModel::appendRow(items)`, that is `insertRow(rowCount(), items)`. -/
def appendRow (m : QStandardItemModel) (items : List QString) : QStandardItemModel :=
  m.insertRow m.rowCount items

/-- Column insertion `insertColumn(column)`: a column without header item and without cell
items; nothing happens when `column` is beyond the column count. -/
def insertColumn (m : QStandardItemModel) (column : Nat) : QStandardItemModel :=
  if column > m.columnCount then m
  else
    ⟨m.columnHeaderItems.take column ++ none :: m.columnHeaderItems.drop column,
     m.children.map (fun r => r.take column ++ none :: r.drop column)⟩

/-- Column removal `removeColumn(column)`: nothing happens outside the table. -/
def removeColumn (m : QStandardItemModel) (column : Nat) : QStandardItemModel :=
  if column < m.columnCount then
    ⟨m.columnHeaderItems.eraseIdx column, m.children.map (fun r => r.eraseIdx column)⟩
  else m

/-- Header write `setHeaderData(section, Qt::Horizontal, value)`: creates the header item if
needed and sets its text; nothing happens outside the table. -/
def setHeaderData (m : QStandardItemModel) (sec : Nat) (value : QString) :
    QStandardItemModel :=
  if sec < m.columnCount then ⟨m.columnHeaderItems.set sec (some value), m.children⟩ else m

end QStandardItemModel

/-! ## The editor -/

/-- Source file as the loaders see it: either it cannot be opened, or it yields its decoded
text (the result of the codec in `detectAndReadText`) and its parse as a JSON document
(`QJsonDocument::fromJson`, `null` when the bytes are no JSON). -/
inductive SourceFile where
  | unreadable : SourceFile
  | readable (text : QString) (doc : QJsonDocument) : SourceFile

/-- State of `DataEditorWidget` that the data pipeline reads and writes: the table
`m_dataModel` and the metadata list `m_columnDefinitions`. -/
structure DataEditorWidget where
  /-- The table. -/
  m_dataModel : QStandardItemModel
  /-- The column definitions. -/
  m_columnDefinitions : List ColumnDefinition
deriving DecidableEq, Repr

/-- Collects a list of possibly null results; `none` as soon as one is null. -/
def collect {α : Type} : List (Option α) → Option (List α)
  | [] => some []
  | none :: _ => none
  | some a :: rest =>
    match collect rest with
    | none => none
    | some as => some (a :: as)

namespace DataEditorWidget

/-- Editor right after construction: an empty model and no definitions. -/
def initial : DataEditorWidget := ⟨⟨[], []⟩, []⟩

/-- Text decoding `detectAndReadText`: the empty string when the file cannot be opened,
the decoded text otherwise. -/
def detectAndReadText (file : SourceFile) : QString :=
  match file with
  | SourceFile.unreadable => []
  | SourceFile.readable text _ => text

/-- Separator sniffing of `loadTextBasedFile` (source lines 226-233): a tab when the text
before the first line feed holds more tabs than commas, a comma otherwise. -/
def sniffSeparator (content : QString) : Char :=
  let strm : QTextStream := ⟨content⟩
  if !strm.atEnd then
    let firstLine := content.section0 '\n'
    if firstLine.count '\t' > firstLine.count ',' then '\t' else ','
  else ','

/-- Quote removal on one split field (source lines 245-246): trim, then drop the first and
the last character when the field starts and ends with a double quote. -/
def stripField (raw : QString) : QString :=
  let f := raw.trimmed
  if f.startsWith '"' && f.endsWith '"' then f.mid 1 ((f.length : Int) - 2) else f

/-- Fields of one line (source lines 241-248): split on the separator, then clean each
field. -/
def extractFields (line : QString) (separator : Char) : List QString :=
  (line.split separator).map stripField

/-- Header branch of the read loop (source lines 251-257): the fields become the header
labels and each appends a default definition carrying its name. -/
def loadHeader (fields : List QString) (w : DataEditorWidget) : DataEditorWidget :=
  ⟨w.m_dataModel.setHorizontalHeaderLabels fields,
   w.m_columnDefinitions ++ fields.map (fun h => { name := h })⟩

/-- Data branch of the read loop (source lines 259-263): one item per field, appended as
a row. -/
def loadRow (fields : List QString) (w : DataEditorWidget) : DataEditorWidget :=
  ⟨w.m_dataModel.appendRow fields, w.m_columnDefinitions⟩

/-- Read loop of `loadTextBasedFile` (source lines 237-265). Every iteration reads
one line; `fuel` bounds the number of iterations and `none` means it ran out. -/
def loadLoop : Nat → QTextStream → Char → Bool → DataEditorWidget → Option DataEditorWidget
  | 0, strm, _, _, w => if strm.atEnd then some w else none
  | fuel + 1, strm, separator, isHeader, w =>
    if strm.atEnd then some w
    else
      let line := strm.readLine.1
      let strm1 := strm.readLine.2
      if line.trimmed.isEmpty then loadLoop fuel strm1 separator isHeader w
      else
        let fields := extractFields line separator
        if isHeader then loadLoop fuel strm1 separator false (loadHeader fields w)
        else loadLoop fuel strm1 separator isHeader (loadRow fields w)

/-- Text import `loadTextBasedFile` on the decoded text `content`: the returned flag is the
function's result. -/
def loadTextBasedFile (content : QString) (w : DataEditorWidget) :
    Option (Bool × DataEditorWidget) :=
  if content.isEmpty then some (false, w)
  else
    match loadLoop content.length ⟨content⟩ (sniffSeparator content) true w with
    | none => none
    | some w1 => some (true, w1)

/-- Serialisation `serializeModelToJson`: the header record followed by one record per
row. Reading the text of a cell without item is undefined, hence `none`. -/
def serializeModelToJson (w : DataEditorWidget) : Option QJsonArray :=
  let m := w.m_dataModel
  let headers : QJsonArray :=
    (List.range m.columnCount).map (fun i => QJsonValue.string (m.headerData i))
  let headerObj : QJsonObject := QJsonObject.insert [] "headers".toList (QJsonValue.array headers)
  let rowObjs : List (Option QJsonValue) :=
    (List.range m.rowCount).map (fun i =>
      match collect ((List.range m.columnCount).map (fun j =>
          (m.item i j).map QJsonValue.string)) with
      | none => none
      | some rowArr =>
        some (QJsonValue.object (QJsonObject.insert [] "row_data".toList (QJsonValue.array rowArr))))
  match collect rowObjs with
  | none => none
  | some rs => some (QJsonValue.object headerObj :: rs)

/-- Row restoring loop of `deserializeJsonToModel` (source lines 370-380) over the
elements after the first. -/
def restoreRows : List QJsonValue → QStandardItemModel → QStandardItemModel
  | [], m => m
  | v :: rest, m =>
    let rowObj := v.toObject
    if rowObj.contains "row_data".toList then
      let rowArr := (rowObj.value "row_data".toList).toArray
      restoreRows rest (m.appendRow (rowArr.map QJsonValue.toString))
    else restoreRows rest m

/-- Deserialisation `deserializeJsonToModel`. -/
def deserializeJsonToModel (array : QJsonArray) (w : DataEditorWidget) : DataEditorWidget :=
  let m0 := w.m_dataModel.clear
  match array with
  | [] => ⟨m0, []⟩
  | first :: rest =>
    let headerObj := first.toObject
    if headerObj.contains "headers".toList then
      let headerLabels := ((headerObj.value "headers".toList).toArray).map QJsonValue.toString
      ⟨restoreRows rest (m0.setHorizontalHeaderLabels headerLabels),
       headerLabels.map (fun h => { name := h })⟩
    else ⟨restoreRows rest m0, []⟩

/-- JSON import `loadJson`: fails when the file cannot be opened or its root is no array. -/
def loadJson (file : SourceFile) (w : DataEditorWidget) : Bool × DataEditorWidget :=
  match file with
  | SourceFile.unreadable => (false, w)
  | SourceFile.readable _ doc =>
    if doc.isArray then (true, deserializeJsonToModel doc.toArray w) else (false, w)

/-- Import `loadFileInternal`: clears the table and the definitions, then runs the loader
chosen by the path; `pathIsJson` is the value of `path.endsWith(".json", Qt::CaseInsensitive)`. -/
def loadFileInternal (pathIsJson : Bool) (file : SourceFile) (w : DataEditorWidget) :
    Option (Bool × DataEditorWidget) :=
  let w0 : DataEditorWidget := ⟨w.m_dataModel.clear, []⟩
  if pathIsJson then some (loadJson file w0)
  else loadTextBasedFile (detectAndReadText file) w0

/-- Slot `onAddRow`; `currentRow` is the row of the view's current index, `none` when that
index is invalid. -/
def onAddRow (currentRow : Option Nat) (w : DataEditorWidget) : DataEditorWidget :=
  let row := match currentRow with
    | some r => r + 1
    | none => w.m_dataModel.rowCount
  let colCount := if w.m_dataModel.columnCount > 0 then w.m_dataModel.columnCount else 1
  let items : List QString := List.replicate colCount []
  ⟨w.m_dataModel.insertRow row items, w.m_columnDefinitions⟩

/-- Slot `onAddCol`. -/
def onAddCol (w : DataEditorWidget) : DataEditorWidget :=
  let m1 := w.m_dataModel.insertColumn w.m_dataModel.columnCount
  let defs := w.m_columnDefinitions ++ [{ name := "新列".toList }]
  ⟨m1.setHeaderData (m1.columnCount - 1) "新列".toList, defs⟩

/-- Slot `onDeleteCol`; `selectedCols` are the source columns of the fully selected
columns. -/
def onDeleteCol (selectedCols : List Nat) (w : DataEditorWidget) : DataEditorWidget :=
  if selectedCols.isEmpty then w
  else
    let cols := selectedCols.insertionSort (fun a b => b ≤ a)
    cols.foldl (fun (st : DataEditorWidget) c =>
      ⟨st.m_dataModel.removeColumn c,
       if c < st.m_columnDefinitions.length then st.m_columnDefinitions.eraseIdx c
       else st.m_columnDefinitions⟩) w

/-- Reference reading of a text: its lines (the pieces between line feeds, each without one
trailing carriage return) that are not blank, in order. -/
def nonBlankLines (content : QString) : List QString :=
  ((content.split '\n').map QTextStream.chopCR).filter (fun l => !l.trimmed.isEmpty)

/-- Reference import of a list of non-blank lines with one fixed separator: the first line
is the header when `isHeader` holds, every other line is a data row. -/
def importLines (separator : Char) : List QString → Bool → DataEditorWidget → DataEditorWidget
  | [], _, w => w
  | l :: ls, isHeader, w =>
    if isHeader then importLines separator ls false (loadHeader (extractFields l separator) w)
    else importLines separator ls false (loadRow (extractFields l separator) w)

/-- Texts of the cells of row `i`, in column order (the empty text stands in for a cell
without item). -/
def rowTexts (m : QStandardItemModel) (i : Nat) : List QString :=
  (List.range m.columnCount).map (fun j => (m.item i j).getD [])

/-- Header labels in column order. -/
def headerTexts (m : QStandardItemModel) : List QString :=
  (List.range m.columnCount).map (fun j => m.headerData j)

/-- Header record of the persisted format: an object with the single member `headers`, an
array of strings. -/
def headerRecord (labels : List QString) : QJsonValue :=
  QJsonValue.object [("headers".toList, QJsonValue.array (labels.map QJsonValue.string))]

/-- Row record of the persisted format: an object with the single member `row_data`, an
array of strings. -/
def rowRecord (texts : List QString) : QJsonValue :=
  QJsonValue.object [("row_data".toList, QJsonValue.array (texts.map QJsonValue.string))]

/-- Sample editor state: two labelled columns with typed metadata and two full rows. -/
def sampleEditor : DataEditorWidget :=
  ⟨⟨[some "t".toList, some "p".toList],
    [[some "0".toList, some "1.5".toList], [some "1".toList, some "1.4".toList]]⟩,
   [⟨"t".toList, WellTestColumnType.Time, "h".toList, true, 3⟩,
    ⟨"p".toList, WellTestColumnType.Pressure, "MPa".toList, false, 3⟩]⟩

/-- Row of cell slots extended with empty slots up to `n` columns. -/
def padTo (n : Nat) (r : List (Option QString)) : List (Option QString) :=
  r ++ List.replicate (n - r.length) none

/-- Largest field count among the header fields and the rows. -/
def widest (n : Nat) (rows : List (List QString)) : Nat :=
  rows.foldl (fun k f => max k f.length) n

end DataEditorWidget

/-! ## Reference for batch deletion -/

namespace QString

/-- Test whether `s` begins with the text `p`. -/
def startsWithStr : QString → QString → Bool
  | _, [] => true
  | [], _ :: _ => false
  | c :: cs, p :: ps => c = p && startsWithStr cs ps

/-- Substring test `QString::contains(const QString&)`, case sensitive. -/
def contains : QString → QString → Bool
  | [], sub => sub.isEmpty
  | c :: cs, sub => startsWithStr (c :: cs) sub || contains cs sub

/-- Lower-casing of the letters `A`..`Z`; it agrees with `QString::toLower` on texts whose
cased letters are all ASCII letters. -/
def asciiLower (s : QString) : QString :=
  s.map (fun c => if 'A' ≤ c ∧ c ≤ 'Z' then Char.ofNat (c.toNat + 32) else c)

/-- Piece of a format text as `QString::arg` scans it: a plain character, or a place
marker with its number and the characters that spell it. -/
inductive ArgToken where
  | text (c : Char) : ArgToken
  | marker (escape : Nat) (raw : QString) : ArgToken
deriving DecidableEq, Repr

/-- Scanner state of `findArgEscapes`: outside a marker, after a percent sign (with the
characters read since, and whether an `L` was taken), or after the first digit. -/
inductive ArgState where
  | normal : ArgState
  | percent (raw : QString) (sawL : Bool) : ArgState
  | digit (raw : QString) (d : Nat) : ArgState

/-- Decimal value `QChar::digitValue` of the digits `0`..`9` (digits of other scripts are
not covered). -/
def digitValue (c : Char) : Option Nat :=
  if '0' ≤ c ∧ c ≤ '9' then some (c.toNat - 48) else none

/-- Scan of a format text into plain characters and place markers (`%`, an optional `L`,
one or two digits), as `findArgEscapes` and `replaceArgEscapes` read it. -/
def scanArg : ArgState → QString → List ArgToken
  | ArgState.normal, [] => []
  | ArgState.percent raw _, [] => raw.map ArgToken.text
  | ArgState.digit raw d, [] => [ArgToken.marker d raw]
  | ArgState.normal, c :: cs =>
    if c = '%' then scanArg (ArgState.percent ['%'] false) cs
    else ArgToken.text c :: scanArg ArgState.normal cs
  | ArgState.percent raw sawL, c :: cs =>
    if c = 'L' ∧ sawL = false then scanArg (ArgState.percent (raw ++ [c]) true) cs
    else
      match digitValue c with
      | some d => scanArg (ArgState.digit (raw ++ [c]) d) cs
      | none =>
        raw.map ArgToken.text ++
          (if c = '%' then scanArg (ArgState.percent ['%'] false) cs
           else ArgToken.text c :: scanArg ArgState.normal cs)
  | ArgState.digit raw d, c :: cs =>
    match digitValue c with
    | some d2 => ArgToken.marker (10 * d + d2) (raw ++ [c]) :: scanArg ArgState.normal cs
    | none =>
      ArgToken.marker d raw ::
        (if c = '%' then scanArg (ArgState.percent ['%'] false) cs
         else ArgToken.text c :: scanArg ArgState.normal cs)

/-- Lowest marker number among the tokens, `none` when there is no marker. -/
def minEscape : List ArgToken → Option Nat
  | [] => none
  | ArgToken.text _ :: ts => minEscape ts
  | ArgToken.marker n _ :: ts =>
    match minEscape ts with
    | none => some n
    | some m => some (min n m)

/-- Substitution `QString::arg(const QString&)`: every place marker carrying the lowest
number present is replaced by `a`; a text without marker is returned unchanged. -/
def arg (s a : QString) : QString :=
  match minEscape (scanArg ArgState.normal s) with
  | none => s
  | some m =>
    ((scanArg ArgState.normal s).map (fun t =>
      match t with
      | ArgToken.text c => [c]
      | ArgToken.marker n raw => if n = m then a else raw)).flatten

end QString

/-! ## Combo boxes -/

/-- State of a `QComboBox`: the item texts, the current index (`-1` without current item),
whether it is editable, and the text of its line edit (meaningful when editable). -/
structure QComboBox where
  /-- Item texts. -/
  items : List QString
  /-- Current index, `-1` when there is none. -/
  currentIndex : Int
  /-- Whether the box has a line edit. -/
  editable : Bool
  /-- Text of the line edit. -/
  lineEditText : QString
deriving DecidableEq, Repr

namespace QComboBox

/-- Freshly constructed combo box. -/
def new : QComboBox := ⟨[], -1, false, []⟩

/-- Text of item `i`, `QComboBox::itemText`: empty outside the list. -/
def itemText (c : QComboBox) (i : Int) : QString :=
  if 0 ≤ i then c.items.getD i.toNat [] else []

/-- Text shown, `QComboBox::currentText`: the line edit's text when editable, the current
item's text otherwise. -/
def currentText (c : QComboBox) : QString :=
  if c.editable then c.lineEditText else c.itemText c.currentIndex

/-- Search `QComboBox::findText` (exact, case sensitive): index of the first item with that
text, `-1` when there is none. -/
def findText (c : QComboBox) (text : QString) : Int :=
  if text ∈ c.items then (c.items.indexOf text : Int) else -1

/-- Selection `QComboBox::setCurrentIndex`: an index outside the list gives no current
item; an editable box shows the new current item's text. -/
def setCurrentIndex (c : QComboBox) (index : Int) : QComboBox :=
  let normalized : Int := if 0 ≤ index ∧ index < (c.items.length : Int) then index else -1
  { c with currentIndex := normalized,
           lineEditText := if c.editable then c.itemText normalized else c.lineEditText }

/-- Switch `QComboBox::setEditable`: a new line edit starts with the current text, and a
removed line edit loses its text. -/
def setEditable (c : QComboBox) (editable : Bool) : QComboBox :=
  if c.editable = editable then c
  else if editable then { c with editable := true, lineEditText := c.currentText }
  else { c with editable := false, lineEditText := [] }

/-- Edit `QComboBox::setEditText`: sets the line edit's text of an editable box. -/
def setEditText (c : QComboBox) (text : QString) : QComboBox :=
  if c.editable then { c with lineEditText := text } else c

/-- Edit `QComboBox::clearEditText`. -/
def clearEditText (c : QComboBox) : QComboBox := c.setEditText []

/-- Assignment `QComboBox::setCurrentText`: the edit text of an editable box, the item with
that text (if any) otherwise. -/
def setCurrentText (c : QComboBox) (text : QString) : QComboBox :=
  if c.editable then c.setEditText text
  else if 0 ≤ c.findText text then c.setCurrentIndex (c.findText text) else c

/-- Reset `QComboBox::clear`: no items and no current item. -/
def clear (c : QComboBox) : QComboBox :=
  { c with items := [], currentIndex := -1, lineEditText := [] }

/-- Append `QComboBox::addItems`: the first item becomes current when the box was empty and
had no current item. -/
def addItems (c : QComboBox) (texts : List QString) : QComboBox :=
  if texts.isEmpty then c
  else if c.items.isEmpty ∧ c.currentIndex < 0 then
    setCurrentIndex { c with items := texts } 0
  else { c with items := c.items ++ texts }

end QComboBox

/-! ## The column definition dialog -/

namespace WellTestColumnType

/-- Enumerator value, `static_cast<int>(type)`. -/
def toIndex : WellTestColumnType → Int
  | SerialNumber => 0 | Date => 1 | Time => 2 | TimeOfDay => 3 | Pressure => 4
  | Temperature => 5 | FlowRate => 6 | Depth => 7 | Viscosity => 8 | Density => 9
  | Permeability => 10 | Porosity => 11 | WellRadius => 12 | SkinFactor => 13
  | Distance => 14 | Volume => 15 | PressureDrop => 16 | Custom => 17

/-- Conversion `static_cast<WellTestColumnType>(index)`. An index that names no enumerator
is identified with `Custom`, whose `default` branch every `switch` of the source takes for
it. -/
def ofIndex (index : Int) : WellTestColumnType :=
  if index = 0 then SerialNumber else if index = 1 then Date else if index = 2 then Time
  else if index = 3 then TimeOfDay else if index = 4 then Pressure
  else if index = 5 then Temperature else if index = 6 then FlowRate
  else if index = 7 then Depth else if index = 8 then Viscosity else if index = 9 then Density
  else if index = 10 then Permeability else if index = 11 then Porosity
  else if index = 12 then WellRadius else if index = 13 then SkinFactor
  else if index = 14 then Distance else if index = 15 then Volume
  else if index = 16 then PressureDrop else Custom

end WellTestColumnType

/-- One configuration row of the dialog: entry `i` of `m_columnNames`, `m_typeComboBoxes`,
`m_unitComboBoxes`, `m_requiredChecks` and `m_previewLabels`. -/
structure ColumnRow where
  /-- Original column name. -/
  columnName : QString
  /-- Type selector. -/
  typeCombo : QComboBox
  /-- Unit selector. -/
  unitCombo : QComboBox
  /-- State of the required check box. -/
  requiredCheck : Bool
  /-- Text of the preview label. -/
  previewLabel : QString
deriving DecidableEq, Repr

/-- State of `DataColumnDialog`: the definitions it was opened with and its rows. -/
structure DataColumnDialog where
  /-- Definitions handed to the constructor (defaulted when none were given). -/
  m_definitions : List ColumnDefinition
  /-- Configuration rows, one per column name. -/
  rows : List ColumnRow
deriving DecidableEq, Repr

namespace DataColumnDialog

/-- Labels of the type selector, `typeNames` of `setupColumnRows`. -/
def typeNames : List QString :=
  ["序号".toList, "日期".toList, "时刻".toList, "时间".toList, "压力".toList, "温度".toList,
   "流量".toList, "深度".toList, "粘度".toList, "密度".toList, "渗透率".toList, "孔隙度".toList,
   "井半径".toList, "表皮系数".toList, "距离".toList, "体积".toList, "压降".toList,
   "自定义".toList]

/-- Unit list chosen by the `switch` of `updateUnitsForType`. -/
def unitsForType : WellTestColumnType → List QString
  | WellTestColumnType.SerialNumber => ["-".toList, "自定义".toList]
  | WellTestColumnType.Date =>
    ["-".toList, "yyyy-MM-dd".toList, "yyyy/MM/dd".toList, "自定义".toList]
  | WellTestColumnType.TimeOfDay =>
    ["-".toList, "hh:mm:ss".toList, "hh:mm".toList, "自定义".toList]
  | WellTestColumnType.Time =>
    ["h".toList, "min".toList, "s".toList, "day".toList, "自定义".toList]
  | WellTestColumnType.Pressure =>
    ["MPa".toList, "kPa".toList, "Pa".toList, "psi".toList, "bar".toList, "atm".toList,
     "自定义".toList]
  | WellTestColumnType.PressureDrop =>
    ["MPa".toList, "kPa".toList, "Pa".toList, "psi".toList, "bar".toList, "atm".toList,
     "自定义".toList]
  | WellTestColumnType.Temperature => ["°C".toList, "°F".toList, "K".toList, "自定义".toList]
  | WellTestColumnType.FlowRate =>
    ["m³/d".toList, "m³/h".toList, "L/s".toList, "bbl/d".toList, "自定义".toList]
  | WellTestColumnType.Depth => ["m".toList, "ft".toList, "km".toList, "自定义".toList]
  | WellTestColumnType.Distance => ["m".toList, "ft".toList, "km".toList, "自定义".toList]
  | WellTestColumnType.Viscosity =>
    ["mPa·s".toList, "cP".toList, "Pa·s".toList, "自定义".toList]
  | WellTestColumnType.Density =>
    ["kg/m³".toList, "g/cm³".toList, "lb/ft³".toList, "自定义".toList]
  | WellTestColumnType.Permeability => ["mD".toList, "D".toList, "μm²".toList, "自定义".toList]
  | WellTestColumnType.Porosity => ["%".toList, "fraction".toList, "自定义".toList]
  | WellTestColumnType.WellRadius =>
    ["m".toList, "ft".toList, "cm".toList, "in".toList, "自定义".toList]
  | WellTestColumnType.SkinFactor => ["dimensionless".toList, "自定义".toList]
  | WellTestColumnType.Volume =>
    ["m³".toList, "L".toList, "bbl".toList, "ft³".toList, "自定义".toList]
  | WellTestColumnType.Custom => ["-".toList, "自定义".toList]

/-- Method `updateUnitsForType` on one unit selector: with its signals blocked, the box is
cleared, made non-editable and filled with the unit list of the type. -/
def updateUnitsForType (type : WellTestColumnType) (unitCombo : QComboBox) : QComboBox :=
  ((unitCombo.clear).setEditable false).addItems (unitsForType type)

/-- Method `updatePreviewLabel` on one row. -/
def updatePreviewLabel (row : ColumnRow) : ColumnRow :=
  let typeStr := row.typeCombo.currentText
  let unitStr := row.unitCombo.currentText
  if unitStr = "-".toList ∨ unitStr.isEmpty ∨ unitStr = "自定义".toList then
    { row with previewLabel := typeStr }
  else
    { row with previewLabel := QString.arg (QString.arg "%1\\%2".toList typeStr) unitStr }

/-- Slot `onCustomTextChanged` for the row whose selector sent the signal. -/
def onCustomTextChanged (row : ColumnRow) : ColumnRow := updatePreviewLabel row

/-- Slot `onTypeChanged(index)` for the row whose type selector sent the signal. -/
def onTypeChanged (index : Int) (row : ColumnRow) : ColumnRow :=
  let type := WellTestColumnType.ofIndex index
  let isCustomType : Bool := index = 17
  updatePreviewLabel
    { row with typeCombo := row.typeCombo.setEditable isCustomType,
               unitCombo := updateUnitsForType type row.unitCombo }

/-- Slot `onUnitChanged` for the row whose unit selector sent the signal. The cleared edit
text may raise `editTextChanged`, whose slot only refreshes the preview, as the last
statement does anyway. -/
def onUnitChanged (row : ColumnRow) : ColumnRow :=
  let currentText := row.unitCombo.currentText
  if currentText = "自定义".toList then
    updatePreviewLabel { row with unitCombo := (row.unitCombo.setEditable true).clearEditText }
  else
    updatePreviewLabel { row with unitCombo := row.unitCombo.setEditable false }

/-- Call `m_typeComboBoxes[i]->setCurrentIndex(index)` with the connected slots: a changed
edit text raises `editTextChanged` (slot `onCustomTextChanged`), then a changed index raises
`currentIndexChanged` (slot `onTypeChanged`). -/
def typeComboSetCurrentIndex (index : Int) (row : ColumnRow) : ColumnRow :=
  let old := row.typeCombo
  let new := old.setCurrentIndex index
  let row1 : ColumnRow := { row with typeCombo := new }
  let row2 := if old.lineEditText ≠ new.lineEditText then onCustomTextChanged row1 else row1
  if new.currentIndex ≠ old.currentIndex then onTypeChanged new.currentIndex row2 else row2

/-- Call `m_unitComboBoxes[i]->setCurrentIndex(index)` with the connected slots
(`onCustomTextChanged`, then `onUnitChanged`). -/
def unitComboSetCurrentIndex (index : Int) (row : ColumnRow) : ColumnRow :=
  let old := row.unitCombo
  let new := old.setCurrentIndex index
  let row1 : ColumnRow := { row with unitCombo := new }
  let row2 := if old.lineEditText ≠ new.lineEditText then onCustomTextChanged row1 else row1
  if new.currentIndex ≠ old.currentIndex then onUnitChanged row2 else row2

/-- Rule chain of `onLoadPresetClicked` on the lower-cased column name: the type index and
the unit to select. -/
def presetRule (name : QString) : Int × QString :=
  if name.contains "序号".toList ∨ name = "no".toList then (0, "-".toList)
  else if name.contains "日期".toList ∨ name.contains "date".toList then
    (1, "yyyy-MM-dd".toList)
  else if name.contains "时刻".toList ∨ name.contains "time".toList then
    (2, "hh:mm:ss".toList)
  else if name.contains "时间".toList ∨ name = "t".toList then (3, "h".toList)
  else if name.contains "压力".toList ∨ name.contains "pressure".toList ∨ name = "p".toList then
    (4, "MPa".toList)
  else if name.contains "流量".toList ∨ name.contains "flow".toList ∨ name = "q".toList then
    (6, "m³/d".toList)
  else (17, "-".toList)

/-- Body of the loop of `onLoadPresetClicked` for one row; `toLower` stands for
`QString::toLower`, whose Unicode case table is not part of the repository. -/
def presetRow (toLower : QString → QString) (row : ColumnRow) : ColumnRow :=
  let name := toLower row.columnName
  let typeIdx := (presetRule name).1
  let unitToSel := (presetRule name).2
  let row1 := typeComboSetCurrentIndex typeIdx row
  let row2 : ColumnRow :=
    { row1 with unitCombo :=
        updateUnitsForType (WellTestColumnType.ofIndex typeIdx) row1.unitCombo }
  let uIdx := row2.unitCombo.findText unitToSel
  if 0 ≤ uIdx then unitComboSetCurrentIndex uIdx row2 else row2

/-- Slot `onLoadPresetClicked`. -/
def onLoadPresetClicked (toLower : QString → QString) (d : DataColumnDialog) :
    DataColumnDialog :=
  { d with rows := d.rows.map (presetRow toLower) }

/-- Body of the loop of `getColumnDefinitions` for one row. -/
def definitionOfRow (row : ColumnRow) : ColumnDefinition :=
  let typeStr := row.typeCombo.currentText
  let unitStr := row.unitCombo.currentText
  let def0 : ColumnDefinition := {}
  let def1 : ColumnDefinition :=
    if unitStr = "-".toList ∨ unitStr.isEmpty ∨ unitStr = "自定义".toList then
      { def0 with name := typeStr, unit := [] }
    else
      { def0 with name := QString.arg (QString.arg "%1\\%2".toList typeStr) unitStr,
                  unit := unitStr }
  { def1 with type := WellTestColumnType.ofIndex row.typeCombo.currentIndex,
              isRequired := row.requiredCheck }

/-- Accessor `getColumnDefinitions`. -/
def getColumnDefinitions (d : DataColumnDialog) : List ColumnDefinition :=
  d.rows.map definitionOfRow

/-- Body of the loop of `setupColumnRows` for the column `name`, with the definition at
the same index when there is one. -/
def setupColumnRow (name : QString) (definition : Option ColumnDefinition) : ColumnRow :=
  let typeCombo0 := QComboBox.new.addItems typeNames
  let typeCombo :=
    match definition with
    | some d =>
      let tc := typeCombo0.setCurrentIndex d.type.toIndex
      if d.type = WellTestColumnType.Custom then
        (tc.setEditable true).setCurrentText ((d.name.split '\\').headD [])
      else tc.setEditable false
    | none => (typeCombo0.setCurrentIndex 17).setEditable true
  let unitCombo := updateUnitsForType (WellTestColumnType.ofIndex typeCombo.currentIndex)
    QComboBox.new
  let requiredCheck :=
    match definition with
    | some d => d.isRequired
    | none => false
  let row0 : ColumnRow := ⟨name, typeCombo, unitCombo, requiredCheck, []⟩
  let row1 :=
    match definition with
    | some d =>
      let unitIdx := row0.unitCombo.findText d.unit
      if 0 ≤ unitIdx then unitComboSetCurrentIndex unitIdx row0
      else if !d.unit.isEmpty then
        onCustomTextChanged
          { row0 with unitCombo := (row0.unitCombo.setEditable true).setCurrentText d.unit }
      else row0
    | none => row0
  updatePreviewLabel row1

/-- Rows built by `setupColumnRows`. -/
def setupColumnRows (columnNames : List QString) (definitions : List ColumnDefinition) :
    List ColumnRow :=
  (List.range columnNames.length).map (fun i =>
    setupColumnRow (columnNames.getD i []) definitions[i]?)

/-- Constructor `DataColumnDialog(columnNames, definitions)`. -/
def create (columnNames : List QString) (definitions : List ColumnDefinition) :
    DataColumnDialog :=
  let defs : List ColumnDefinition :=
    if definitions.isEmpty then
      columnNames.map (fun name => { name := name, type := WellTestColumnType.Custom })
    else definitions
  ⟨defs, setupColumnRows columnNames defs⟩

end DataColumnDialog

/-! ## Reference for the text parser -/

/-- Separator as the specification words it: the tab when the text before the first line
feed holds strictly more tabs than commas, the comma otherwise. -/
def specSeparator (content : QString) : Char :=
  if List.count ',' (content.takeWhile (fun c => c != '\n'))
      < List.count '\t' (content.takeWhile (fun c => c != '\n')) then '\t' else ','

/-- Field as the specification words it: the raw field trimmed, without its first and its
last character when it has at least two characters and both starts and ends with a double
quote, and unchanged otherwise. -/
def specField (raw : QString) : QString :=
  if 2 ≤ (QString.trimmed raw).length ∧ QString.startsWith (QString.trimmed raw) '"' = true ∧
      QString.endsWith (QString.trimmed raw) '"' = true then
    ((QString.trimmed raw).drop 1).dropLast
  else QString.trimmed raw

/-- Fields of a line as the specification words them: the line split at every occurrence
of the separator, each piece extracted by `specField`. -/
def specFields (line : QString) (separator : Char) : List QString :=
  (List.splitOn separator line).map specField

/-! ## Lemmas on strings and streams -/

namespace QString

theorem split_eq_takeWhile_cons (sep : Char) (b : QString) :
    split b sep = b.takeWhile (fun c => c != sep) ::
      (if b.dropWhile (fun c => c != sep) = [] then []
       else split ((b.dropWhile (fun c => c != sep)).drop 1) sep) := by
  induction b with
  | nil => simp [split]
  | cons c cs ih =>
    by_cases h : c = sep
    · subst h
      simp [split]
    · rw [split, if_neg h, ih]
      simp [h]

theorem split_length (sep : Char) (b : QString) :
    (split b sep).length = List.count sep b + 1 := by
  induction b with
  | nil => simp [split]
  | cons c cs ih =>
    by_cases h : c = sep
    · subst h
      simp [split, ih]
    · rw [split, if_neg h]
      have hc : (c == sep) = false := by simpa using h
      cases hs : split cs sep with
      | nil => rw [hs] at ih; simp at ih
      | cons f fs =>
        rw [hs] at ih
        simp [List.count_cons, hc]
        simpa using ih

theorem trimmed_eq_nil_iff (l : QString) :
    trimmed l = [] ↔ ∀ c ∈ l, QChar.isSpace c = true := by
  unfold trimmed
  rw [List.reverse_eq_nil_iff, List.dropWhile_eq_nil_iff]
  constructor
  · intro h
    by_cases hd : l.dropWhile QChar.isSpace = []
    · exact List.dropWhile_eq_nil_iff.mp hd
    · have hhead := List.head_dropWhile_not QChar.isSpace l hd
      have hmem : (l.dropWhile QChar.isSpace).head hd ∈ (l.dropWhile QChar.isSpace).reverse :=
        List.mem_reverse.mpr (List.head_mem hd)
      rw [h _ hmem] at hhead
      cases hhead
  · intro h x hx
    have hd : l.dropWhile QChar.isSpace = [] := List.dropWhile_eq_nil_iff.mpr h
    rw [hd] at hx
    simp at hx

theorem takeWhile_append_sep (sep : Char) (pre post : QString) (h : sep ∉ pre) :
    (pre ++ sep :: post).takeWhile (fun c => c != sep) = pre ∧
    (pre ++ sep :: post).dropWhile (fun c => c != sep) = sep :: post := by
  induction pre with
  | nil => simp
  | cons c cs ih =>
    have hc : c ≠ sep := fun e => h (e ▸ List.mem_cons_self c cs)
    have hcs : sep ∉ cs := fun e => h (List.mem_cons_of_mem c e)
    have ih1 := ih hcs
    simp [hc, ih1.1, ih1.2]

end QString

namespace QTextStream

theorem readLine_length_lt (b : QString) (h : b ≠ []) :
    (readLine ⟨b⟩).2.buffer.length < b.length := by
  have h1 : (b.dropWhile (fun c => c != '\n')).length ≤ b.length :=
    (List.dropWhile_sublist _).length_le
  have h2 : 0 < b.length := List.length_pos.mpr h
  simp only [readLine, List.length_drop]
  omega

theorem count_chopCR (c : Char) (hc : c ≠ '\r') (l : QString) :
    List.count c (chopCR l) = List.count c l := by
  unfold chopCR
  split
  · rename_i h
    have hl : l ≠ [] := by
      intro h0
      simp [h0] at h
    have hlast : l.getLast hl = '\r' := by
      rw [List.getLast?_eq_getLast _ hl] at h
      simpa using h
    conv_rhs => rw [← List.dropLast_append_getLast hl]
    rw [List.count_append, hlast]
    simp [List.count_cons, hc.symm]
  · rfl

end QTextStream

/-! ## Lemmas on the item model -/

namespace QStandardItemModel

theorem appendRow_eq (m : QStandardItemModel) (items : List QString) :
    m.appendRow items =
      ⟨m.columnHeaderItems ++ List.replicate (items.length - m.columnCount) none,
       m.children.map (fun r => r ++ List.replicate (items.length - m.columnCount) none)
         ++ [items.map some ++ List.replicate (m.columnCount - items.length) none]⟩ := by
  obtain ⟨hdr, ch⟩ := m
  simp only [appendRow, insertRow, columnCount, rowCount, setColumnCount]
  by_cases h : hdr.length < items.length
  · have hk : hdr.length - items.length = 0 := by omega
    have hlen : hdr.length + (items.length - hdr.length) = items.length := by omega
    simp only [h, if_true, List.length_map, lt_self_iff_false, gt_iff_lt, if_false,
      List.length_append, List.length_replicate, hlen, Nat.sub_self, List.replicate_zero,
      List.append_nil, hk]
    rw [← List.length_map ch (fun r => r ++ List.replicate (items.length - hdr.length) none)]
    rw [List.take_length, List.drop_length]
    rw [← List.length_map items some, List.take_length]
  · have hk : items.length - hdr.length = 0 := by omega
    have hk2 : items.length + (hdr.length - items.length) = hdr.length := by omega
    have htake : List.take hdr.length
        (List.map some items ++ List.replicate (hdr.length - items.length) none)
        = List.map some items ++ List.replicate (hdr.length - items.length) none := by
      apply List.take_of_length_le
      simp [hk2]
    have hid : List.map (fun (r : List (Option QString)) => r) ch = ch := List.map_id ch
    simp only [h, if_false, hk, List.replicate_zero, List.append_nil, hid,
      gt_iff_lt, lt_self_iff_false, List.take_length, List.drop_length, htake]

theorem clear_setHorizontalHeaderLabels (m : QStandardItemModel) (labels : List QString) :
    m.clear.setHorizontalHeaderLabels labels = ⟨labels.map some, []⟩ := by
  unfold setHorizontalHeaderLabels clear
  by_cases h : labels.length = 0
  · have hl : labels = [] := List.length_eq_zero.mp h
    subst hl
    simp [columnCount]
  · have hpos : 0 < labels.length := Nat.pos_of_ne_zero h
    simp [columnCount, setColumnCount, hpos]

end QStandardItemModel

/-! ## Lemmas on the read loop -/

namespace DataEditorWidget

theorem nonBlankLines_nil : nonBlankLines [] = [] := by decide

theorem nonBlankLines_step (b : QString) :
    nonBlankLines b =
      (if (QTextStream.readLine ⟨b⟩).1.trimmed.isEmpty then []
       else [(QTextStream.readLine ⟨b⟩).1]) ++ nonBlankLines (QTextStream.readLine ⟨b⟩).2.buffer := by
  unfold nonBlankLines
  rw [QString.split_eq_takeWhile_cons '\n' b]
  simp only [QTextStream.readLine, List.map_cons, List.filter_cons]
  by_cases hd : b.dropWhile (fun c => c != '\n') = []
  · rw [if_pos hd, hd]
    have h0 : List.filter (fun l => !(QString.trimmed l).isEmpty)
        (List.map QTextStream.chopCR (QString.split (List.drop 1 ([] : List Char)) '\n')) = [] := by
      decide
    rw [h0]
    cases (QString.trimmed (QTextStream.chopCR
      (List.takeWhile (fun c => c != '\n') b))).isEmpty <;> simp
  · rw [if_neg hd]
    cases (QString.trimmed (QTextStream.chopCR
      (List.takeWhile (fun c => c != '\n') b))).isEmpty <;> simp

/-- The read loop with at least as much fuel as unread characters terminates normally and
computes the reference import of the non-blank lines. -/
theorem loadLoop_eq_importLines (separator : Char) :
    ∀ (fuel : Nat) (b : QString) (isHeader : Bool) (w : DataEditorWidget),
      b.length ≤ fuel →
      loadLoop fuel ⟨b⟩ separator isHeader w
        = some (importLines separator (nonBlankLines b) isHeader w) := by
  intro fuel
  induction fuel with
  | zero =>
    intro b isHeader w hb
    have hnil : b = [] := List.length_eq_zero.mp (Nat.le_zero.mp hb)
    subst hnil
    simp [loadLoop, QTextStream.atEnd, nonBlankLines_nil, importLines]
  | succ n ih =>
    intro b isHeader w hb
    by_cases hnil : b = []
    · subst hnil
      simp [loadLoop, QTextStream.atEnd, nonBlankLines_nil, importLines]
    · have hlt := QTextStream.readLine_length_lt b hnil
      have hfuel : (QTextStream.readLine ⟨b⟩).2.buffer.length ≤ n := by omega
      have hend : QTextStream.atEnd ⟨b⟩ = false := by
        simp [QTextStream.atEnd, hnil]
      rw [loadLoop, hend, nonBlankLines_step b]
      simp only [Bool.false_eq_true, if_false]
      by_cases hblank : (QTextStream.readLine ⟨b⟩).1.trimmed.isEmpty = true
      · rw [if_pos hblank, if_pos hblank]
        simpa using ih _ isHeader w hfuel
      · rw [if_neg hblank, if_neg hblank]
        cases isHeader with
        | true =>
          simp only [if_true, List.singleton_append, importLines]
          exact ih _ false _ hfuel
        | false =>
          simp only [Bool.false_eq_true, if_false, List.singleton_append, importLines]
          exact ih _ false _ hfuel

theorem sniffSeparator_eq (content : QString) :
    sniffSeparator content =
      if List.count ',' (content.takeWhile (fun c => c != '\n'))
          < List.count '\t' (content.takeWhile (fun c => c != '\n')) then '\t' else ',' := by
  unfold sniffSeparator
  by_cases h : content = []
  · subst h
    simp [QTextStream.atEnd]
  · simp [QTextStream.atEnd, h, QString.section0]

theorem blank_chopCR (l : QString) (h : l.trimmed = []) :
    (QTextStream.chopCR l).trimmed = [] := by
  rw [QString.trimmed_eq_nil_iff] at h ⊢
  intro c hc
  unfold QTextStream.chopCR at hc
  split at hc
  · exact h c (List.dropLast_subset l hc)
  · exact h c hc

/-- The text import is total: it reports failure on the empty text and otherwise imports
the non-blank lines with the sniffed separator. -/
theorem loadTextBasedFile_eq (content : QString) (w : DataEditorWidget) :
    loadTextBasedFile content w =
      if content = [] then some (false, w)
      else some (true, importLines (sniffSeparator content) (nonBlankLines content) true w) := by
  unfold loadTextBasedFile
  by_cases h : content = []
  · subst h
    simp
  · have hne : content.isEmpty = false := by simpa using h
    rw [hne, if_neg h, loadLoop_eq_importLines _ _ content true w (Nat.le_refl _)]
    simp

theorem loadTextBasedFile_false_inv (content : QString) (w w1 : DataEditorWidget)
    (h1 : loadTextBasedFile content w = some (false, w1)) : content = [] ∧ w1 = w := by
  rw [loadTextBasedFile_eq] at h1
  by_cases h : content = []
  · rw [if_pos h] at h1
    simp only [Option.some.injEq, Prod.mk.injEq, true_and] at h1
    exact ⟨h, h1.symm⟩
  · rw [if_neg h] at h1
    simp at h1

theorem padTo_length (c : Nat) (r : List (Option QString)) (h : r.length ≤ c) :
    (padTo c r).length = c := by
  simp [padTo]
  omega

theorem padTo_append_replicate (c k : Nat) (r : List (Option QString)) (h : r.length ≤ c) :
    padTo c r ++ List.replicate (k - c) none = padTo (max c k) r := by
  have e : max c k - r.length = (c - r.length) + (k - c) := by omega
  simp only [padTo, List.append_assoc, List.append_replicate_replicate, e]

theorem map_some_append_replicate (c : Nat) (f : List QString) :
    List.map some f ++ List.replicate (c - f.length) none = padTo (max c f.length) (f.map some) := by
  have e : max c f.length - f.length = c - f.length := by omega
  simp only [padTo, List.length_map, e]

/-- Appending the rows of a list of lines to a table whose slots are all padded to the
current column count keeps that shape, with the column count raised to the widest row. -/
theorem importLines_rows (separator : Char) :
    ∀ (ls : List QString) (c : Nat) (hdr : List (Option QString))
      (rs : List (List (Option QString))) (defs : List ColumnDefinition),
      hdr.length ≤ c → (∀ r ∈ rs, r.length ≤ c) →
      importLines separator ls false ⟨⟨padTo c hdr, rs.map (padTo c)⟩, defs⟩ =
        ⟨⟨padTo (widest c (ls.map (fun l => extractFields l separator))) hdr,
          (rs ++ (ls.map (fun l => extractFields l separator)).map (fun f => f.map some)).map
            (padTo (widest c (ls.map (fun l => extractFields l separator))))⟩, defs⟩ := by
  intro ls
  induction ls with
  | nil =>
    intro c hdr rs defs _ _
    simp [importLines, widest]
  | cons l ls ih =>
    intro c hdr rs defs hh hr
    have hstep : loadRow (extractFields l separator) ⟨⟨padTo c hdr, rs.map (padTo c)⟩, defs⟩ =
        ⟨⟨padTo (max c (extractFields l separator).length) hdr,
          (rs ++ [(extractFields l separator).map some]).map
            (padTo (max c (extractFields l separator).length))⟩, defs⟩ := by
      have hrows : List.map ((fun r => r ++ List.replicate
            ((extractFields l separator).length - c) none) ∘ padTo c) rs
          = List.map (padTo (max c (extractFields l separator).length)) rs := by
        apply List.map_congr_left
        intro r hmem
        exact padTo_append_replicate c _ r (hr r hmem)
      simp only [loadRow, QStandardItemModel.appendRow_eq, QStandardItemModel.columnCount,
        padTo_length c hdr hh, padTo_append_replicate c _ hdr hh, List.map_map, List.map_append,
        List.map_cons, List.map_nil, map_some_append_replicate, hrows]
    have hr1 : ∀ r ∈ rs ++ [(extractFields l separator).map some],
        r.length ≤ max c (extractFields l separator).length := by
      intro r hmem
      rcases List.mem_append.mp hmem with h1 | h1
      · exact le_trans (hr r h1) (le_max_left _ _)
      · rw [List.mem_singleton.mp h1, List.length_map]
        exact le_max_right _ _
    simp only [importLines, Bool.false_eq_true, if_false]
    rw [hstep, ih _ hdr _ defs (le_trans hh (le_max_left _ _)) hr1]
    simp [widest]

theorem padTo_getD (f : List QString) :
    ∀ (k j : Nat), (f.map some ++ List.replicate k none).getD j none = f[j]? := by
  induction f with
  | nil =>
    intro k j
    by_cases h : j < k
    · simp [List.getD_eq_getElem?_getD, List.getElem?_replicate, h]
    · simp [List.getD_eq_getElem?_getD, List.getElem?_replicate, h]
  | cons x xs ih =>
    intro k j
    cases j with
    | zero => simp
    | succ n => simpa using ih k n

theorem importLines_from_cleared (separator : Char) (l0 : QString) (rest : List QString)
    (m : QStandardItemModel) :
    importLines separator (l0 :: rest) true ⟨m.clear, []⟩ =
      ⟨⟨padTo (widest (extractFields l0 separator).length
            (rest.map (fun l => extractFields l separator)))
          ((extractFields l0 separator).map some),
        (rest.map (fun l => extractFields l separator)).map (fun f =>
          padTo (widest (extractFields l0 separator).length
            (rest.map (fun l => extractFields l separator))) (f.map some))⟩,
       (extractFields l0 separator).map (fun h => ⟨h, WellTestColumnType.Custom, [], false, 3⟩)⟩ := by
  have hhead : loadHeader (extractFields l0 separator) ⟨m.clear, []⟩ =
      ⟨⟨padTo (extractFields l0 separator).length ((extractFields l0 separator).map some),
        List.map (padTo (extractFields l0 separator).length) []⟩,
       (extractFields l0 separator).map (fun h => ⟨h, WellTestColumnType.Custom, [], false, 3⟩)⟩ := by
    simp [loadHeader, QStandardItemModel.clear_setHorizontalHeaderLabels, padTo]
  simp only [importLines, if_true]
  rw [hhead, importLines_rows separator rest _ _ [] _ (by simp) (by simp)]
  simp [List.map_map, Function.comp_def]

/-! ## Lemmas on persistence -/

theorem collect_map_eq_some {α β : Type} (f : β → Option α) (g : β → α) :
    ∀ (l : List β), (∀ x ∈ l, f x = some (g x)) → collect (l.map f) = some (l.map g) := by
  intro l
  induction l with
  | nil => intro _; rfl
  | cons x xs ih =>
    intro h
    have hx := h x (List.mem_cons_self x xs)
    have hxs := ih (fun y hy => h y (List.mem_cons_of_mem x hy))
    simp only [List.map_cons, hx, collect, hxs]

theorem serializeModelToJson_eq (w : DataEditorWidget)
    (hcells : ∀ i j, i < w.m_dataModel.rowCount → j < w.m_dataModel.columnCount →
      (w.m_dataModel.item i j).isSome = true) :
    serializeModelToJson w = some (headerRecord (headerTexts w.m_dataModel) ::
      (List.range w.m_dataModel.rowCount).map (fun i => rowRecord (rowTexts w.m_dataModel i))) := by
  have hrow : ∀ i ∈ List.range w.m_dataModel.rowCount,
      (match collect ((List.range w.m_dataModel.columnCount).map (fun j =>
          (w.m_dataModel.item i j).map QJsonValue.string)) with
        | none => none
        | some rowArr => some (QJsonValue.object
            (QJsonObject.insert [] "row_data".toList (QJsonValue.array rowArr))))
      = some (rowRecord (rowTexts w.m_dataModel i)) := by
    intro i hi
    have hi1 : i < w.m_dataModel.rowCount := List.mem_range.mp hi
    have hc : collect ((List.range w.m_dataModel.columnCount).map (fun j =>
          (w.m_dataModel.item i j).map QJsonValue.string))
        = some ((List.range w.m_dataModel.columnCount).map (fun j =>
            QJsonValue.string ((w.m_dataModel.item i j).getD []))) := by
      apply collect_map_eq_some
      intro j hj
      have hsome := hcells i j hi1 (List.mem_range.mp hj)
      cases hitem : w.m_dataModel.item i j with
      | none => rw [hitem] at hsome; simp at hsome
      | some t => simp
    rw [hc]
    simp [rowRecord, rowTexts, QJsonObject.insert, List.map_map, Function.comp_def]
  unfold serializeModelToJson
  simp only []
  rw [collect_map_eq_some _ _ _ hrow]
  simp [headerRecord, headerTexts, QJsonObject.insert, List.map_map, Function.comp_def]

theorem restoreRows_records :
    ∀ (rows : List (List QString)) (m : QStandardItemModel),
      (∀ r ∈ rows, r.length = m.columnCount) →
      restoreRows (rows.map rowRecord) m
        = ⟨m.columnHeaderItems, m.children ++ rows.map (fun r => r.map some)⟩ := by
  intro rows
  induction rows with
  | nil => intro m _; simp [restoreRows]
  | cons r rs ih =>
    intro m h
    have hr : r.length = m.columnCount := h r (List.mem_cons_self r rs)
    have happ : m.appendRow r = ⟨m.columnHeaderItems, m.children ++ [r.map some]⟩ := by
      rw [QStandardItemModel.appendRow_eq, hr]
      simp
    have hkey : QJsonObject.contains (rowRecord r).toObject "row_data".toList = true := by
      simp [rowRecord, QJsonValue.toObject, QJsonObject.contains]
    have hval : List.map QJsonValue.toString
        (QJsonObject.value (rowRecord r).toObject "row_data".toList).toArray = r := by
      simp [rowRecord, QJsonValue.toObject, QJsonObject.value, QJsonValue.toArray,
        List.map_map, Function.comp_def, QJsonValue.toString]
    rw [List.map_cons, restoreRows]
    simp only [hkey, if_true, hval, happ]
    rw [ih]
    · simp
    · intro r1 h1
      rw [h r1 (List.mem_cons_of_mem r h1)]
      rfl

theorem deserializeJsonToModel_records (labels : List QString) (rows : List (List QString))
    (w : DataEditorWidget) (h : ∀ r ∈ rows, r.length = labels.length) :
    deserializeJsonToModel (headerRecord labels :: rows.map rowRecord) w
      = ⟨⟨labels.map some, rows.map (fun r => r.map some)⟩,
         labels.map (fun h => { name := h })⟩ := by
  have hkey : QJsonObject.contains (headerRecord labels).toObject "headers".toList = true := by
    simp [headerRecord, QJsonValue.toObject, QJsonObject.contains]
  have hval : List.map QJsonValue.toString
      (QJsonObject.value (headerRecord labels).toObject "headers".toList).toArray = labels := by
    simp [headerRecord, QJsonValue.toObject, QJsonObject.value, QJsonValue.toArray,
      List.map_map, Function.comp_def, QJsonValue.toString]
  unfold deserializeJsonToModel
  simp only [hkey, if_true, hval, QStandardItemModel.clear_setHorizontalHeaderLabels]
  rw [restoreRows_records]
  · simp
  · intro r hr
    simp [QStandardItemModel.columnCount, h r hr]

end DataEditorWidget

/-! ## Persistence: format and round trip -/

open DataEditorWidget

/-- C1 (round trip). For every table in which each cell of each row holds an item, the
serialisation is defined and deserialising it (over any editor state) gives a table with the
same column count, the same row count, the same header label in every column and the same
text in every cell. -/
theorem roundtrip_deserialize_serialize (w w0 : DataEditorWidget)
    (hcells : ∀ i, i < w.m_dataModel.rowCount → ∀ j, j < w.m_dataModel.columnCount →
      (w.m_dataModel.item i j).isSome = true) :
    ∃ doc, serializeModelToJson w = some doc ∧
      (deserializeJsonToModel doc w0).m_dataModel.columnCount = w.m_dataModel.columnCount ∧
      (deserializeJsonToModel doc w0).m_dataModel.rowCount = w.m_dataModel.rowCount ∧
      (∀ j, (deserializeJsonToModel doc w0).m_dataModel.headerData j
          = w.m_dataModel.headerData j) ∧
      (∀ i, i < w.m_dataModel.rowCount → ∀ j, j < w.m_dataModel.columnCount →
        (deserializeJsonToModel doc w0).m_dataModel.item i j = w.m_dataModel.item i j) := by
  have hser := serializeModelToJson_eq w (fun i j hi hj => hcells i hi j hj)
  refine ⟨_, hser, ?_⟩
  have hdes := deserializeJsonToModel_records (headerTexts w.m_dataModel)
    ((List.range w.m_dataModel.rowCount).map (fun i => rowTexts w.m_dataModel i)) w0
    (by
      intro r hr
      obtain ⟨i, _, rfl⟩ := List.mem_map.mp hr
      simp [rowTexts, headerTexts])
  rw [List.map_map] at hdes
  have hdes1 : deserializeJsonToModel (headerRecord (headerTexts w.m_dataModel) ::
      List.map (fun i => rowRecord (rowTexts w.m_dataModel i))
        (List.range w.m_dataModel.rowCount)) w0 = _ := hdes
  rw [hdes1]
  refine ⟨?_, ?_, ?_, ?_⟩
  · simp [QStandardItemModel.columnCount, headerTexts]
  · simp [QStandardItemModel.rowCount]
  · intro j
    by_cases hj : j < w.m_dataModel.columnCount
    · have hj1 : j < w.m_dataModel.columnHeaderItems.length := hj
      simp [QStandardItemModel.headerData, headerTexts, QStandardItemModel.columnCount,
        List.getElem?_map, List.getElem?_range, hj1]
    · have hj1 : w.m_dataModel.columnHeaderItems.length ≤ j := Nat.le_of_not_lt hj
      have hnone : w.m_dataModel.columnHeaderItems[j]? = none := List.getElem?_eq_none hj1
      have hrange : (List.range w.m_dataModel.columnHeaderItems.length)[j]? = none :=
        List.getElem?_eq_none (by simpa using hj1)
      simp [QStandardItemModel.headerData, headerTexts, QStandardItemModel.columnCount,
        List.getElem?_map, hnone, hrange]
  · intro i hi j hj
    have hsome := hcells i hi j hj
    have hi1 : i < w.m_dataModel.children.length := hi
    have hj1 : j < w.m_dataModel.columnHeaderItems.length := hj
    cases hitem : w.m_dataModel.item i j with
    | none => rw [hitem] at hsome; simp at hsome
    | some t =>
      simp [QStandardItemModel.item, rowTexts, List.getD_eq_getElem?_getD, List.getElem?_map,
        List.getElem?_range, hi1, hj1, QStandardItemModel.columnCount, QStandardItemModel.rowCount]
      have hrow : w.m_dataModel.children[i]? = some w.m_dataModel.children[i] :=
        List.getElem?_eq_getElem hi1
      simp only [QStandardItemModel.item, List.getD_eq_getElem?_getD, hrow,
        Option.getD_some] at hitem
      rw [hitem]
      rfl

/-- Witness of C1 on the sample table (two columns, two rows, every cell filled), restored
over the freshly constructed editor. -/
theorem roundtrip_deserialize_serialize_witness :
    (∀ i, i < sampleEditor.m_dataModel.rowCount → ∀ j, j < sampleEditor.m_dataModel.columnCount →
      (sampleEditor.m_dataModel.item i j).isSome = true) ∧
    ∃ doc, serializeModelToJson sampleEditor = some doc ∧
      (deserializeJsonToModel doc initial).m_dataModel.columnCount
        = sampleEditor.m_dataModel.columnCount ∧
      (deserializeJsonToModel doc initial).m_dataModel.rowCount
        = sampleEditor.m_dataModel.rowCount ∧
      (∀ j, (deserializeJsonToModel doc initial).m_dataModel.headerData j
          = sampleEditor.m_dataModel.headerData j) ∧
      (∀ i, i < sampleEditor.m_dataModel.rowCount →
        ∀ j, j < sampleEditor.m_dataModel.columnCount →
        (deserializeJsonToModel doc initial).m_dataModel.item i j
          = sampleEditor.m_dataModel.item i j) :=
  ⟨by decide, roundtrip_deserialize_serialize sampleEditor initial (by decide)⟩

/-- C2 (output format). For every table with `c` columns and `r` rows in which every cell
holds an item, `serializeModelToJson` produces an array of exactly `r + 1` elements (so never
the empty array); element 0 is the object whose `headers` member lists the `c` header labels
in column order, and element `i + 1` is the object whose `row_data` member lists the `c` cell
texts of row `i` in column order. -/
theorem serializeModelToJson_format (w : DataEditorWidget)
    (hcells : ∀ i, i < w.m_dataModel.rowCount → ∀ j, j < w.m_dataModel.columnCount →
      (w.m_dataModel.item i j).isSome = true) :
    ∃ arr, serializeModelToJson w = some arr ∧
      arr.length = w.m_dataModel.rowCount + 1 ∧ arr ≠ [] ∧
      arr[0]? = some (QJsonValue.object [("headers".toList, QJsonValue.array
        ((List.range w.m_dataModel.columnCount).map
          (fun j => QJsonValue.string (w.m_dataModel.headerData j))))]) ∧
      ∀ i, i < w.m_dataModel.rowCount →
        ∃ texts : List QString,
          texts.map some = (List.range w.m_dataModel.columnCount).map
            (fun j => w.m_dataModel.item i j) ∧
          arr[i + 1]? = some (QJsonValue.object [("row_data".toList, QJsonValue.array
            (texts.map QJsonValue.string))]) := by
  have hser := serializeModelToJson_eq w (fun i j hi hj => hcells i hi j hj)
  refine ⟨_, hser, by simp, by simp, ?_, ?_⟩
  · simp [headerRecord, headerTexts, List.map_map, Function.comp_def]
  · intro i hi
    refine ⟨rowTexts w.m_dataModel i, ?_, ?_⟩
    · simp only [rowTexts, List.map_map]
      apply List.map_congr_left
      intro j hj
      have hsome := hcells i hi j (List.mem_range.mp hj)
      cases hitem : w.m_dataModel.item i j with
      | none => rw [hitem] at hsome; simp at hsome
      | some t => simp [hitem]
    · simp [List.getElem?_map, List.getElem?_range, hi, rowRecord]

/-- Witness of C2 on the sample table. -/
theorem serializeModelToJson_format_witness :
    (∀ i, i < sampleEditor.m_dataModel.rowCount → ∀ j, j < sampleEditor.m_dataModel.columnCount →
      (sampleEditor.m_dataModel.item i j).isSome = true) ∧
    serializeModelToJson sampleEditor = some
      [QJsonValue.object [("headers".toList, QJsonValue.array
          [QJsonValue.string "t".toList, QJsonValue.string "p".toList])],
       QJsonValue.object [("row_data".toList, QJsonValue.array
          [QJsonValue.string "0".toList, QJsonValue.string "1.5".toList])],
       QJsonValue.object [("row_data".toList, QJsonValue.array
          [QJsonValue.string "1".toList, QJsonValue.string "1.4".toList])]] ∧
    ∃ arr, serializeModelToJson sampleEditor = some arr ∧
      arr.length = sampleEditor.m_dataModel.rowCount + 1 :=
  ⟨by decide, rfl,
   (serializeModelToJson_format sampleEditor (by decide)).imp (fun _ h => ⟨h.1, h.2.1⟩)⟩

theorem QJsonObject.contains_of_value_array (o : QJsonObject) (key : QString)
    (a : QJsonArray) (h : QJsonObject.value o key = QJsonValue.array a) :
    QJsonObject.contains o key = true := by
  unfold QJsonObject.value at h
  unfold QJsonObject.contains
  cases hfind : List.find? (fun kv => decide (kv.1 = key)) o with
  | none => rw [hfind] at h; cases h
  | some kv =>
    have hp := List.find?_some hfind
    exact List.any_eq_true.mpr ⟨kv, List.mem_of_find?_eq_some hfind, hp⟩

/-- C3 (metadata rebuilt from scratch). Whatever the editor held before,
`deserializeJsonToModel` of the empty document leaves no columns, no rows and an empty
list of column definitions; and for a document whose element 0 carries a `headers` array of
the strings `hs`, the resulting list of definitions has exactly `hs.length` entries, entry
`k` being the default one (type `Custom`, empty unit) named `hs[k]`. -/
theorem deserializeJsonToModel_definitions (w : DataEditorWidget) (first : QJsonValue)
    (rest : QJsonArray) (hs : List QString)
    (hheaders : QJsonObject.value first.toObject "headers".toList
      = QJsonValue.array (hs.map QJsonValue.string)) :
    (deserializeJsonToModel [] w).m_dataModel.columnCount = 0 ∧
    (deserializeJsonToModel [] w).m_dataModel.rowCount = 0 ∧
    (deserializeJsonToModel [] w).m_columnDefinitions = [] ∧
    (deserializeJsonToModel (first :: rest) w).m_columnDefinitions.length = hs.length ∧
    (deserializeJsonToModel (first :: rest) w).m_columnDefinitions
      = hs.map (fun h => ⟨h, WellTestColumnType.Custom, [], false, 3⟩) ∧
    ∀ (k : Nat) (d : ColumnDefinition),
      (deserializeJsonToModel (first :: rest) w).m_columnDefinitions[k]? = some d →
      hs[k]? = some d.name ∧ d.type = WellTestColumnType.Custom ∧ d.unit = [] := by
  have hkey := QJsonObject.contains_of_value_array _ _ _ hheaders
  have hdefs : (deserializeJsonToModel (first :: rest) w).m_columnDefinitions
      = hs.map (fun h => ⟨h, WellTestColumnType.Custom, [], false, 3⟩) := by
    unfold deserializeJsonToModel
    simp only [hkey, if_true, hheaders, QJsonValue.toArray, List.map_map]
    apply List.map_congr_left
    intro h _
    rfl
  refine ⟨rfl, rfl, rfl, ?_, hdefs, ?_⟩
  · rw [hdefs, List.length_map]
  · intro k d hk
    rw [hdefs, List.getElem?_map] at hk
    cases hget : hs[k]? with
    | none => rw [hget] at hk; cases hk
    | some h =>
      rw [hget] at hk
      simp only [Option.map_some', Option.some.injEq] at hk
      subst hk
      exact ⟨rfl, rfl, rfl⟩

/-- Witness of C3: a document with two headers and one row, loaded over the sample editor
whose columns carry the types `Time` and `Pressure`. -/
theorem deserializeJsonToModel_definitions_witness :
    (deserializeJsonToModel [QJsonValue.object [("headers".toList, QJsonValue.array
          (["x".toList, "y".toList].map QJsonValue.string))],
        QJsonValue.object [("row_data".toList, QJsonValue.array
          [QJsonValue.string "1".toList, QJsonValue.string "2".toList])]]
      sampleEditor).m_columnDefinitions
      = [⟨"x".toList, WellTestColumnType.Custom, [], false, 3⟩,
         ⟨"y".toList, WellTestColumnType.Custom, [], false, 3⟩] :=
  (deserializeJsonToModel_definitions sampleEditor
    (QJsonValue.object [("headers".toList, QJsonValue.array
      (["x".toList, "y".toList].map QJsonValue.string))])
    [QJsonValue.object [("row_data".toList, QJsonValue.array
      [QJsonValue.string "1".toList, QJsonValue.string "2".toList])]]
    ["x".toList, "y".toList] rfl).2.2.2.2.1

/-! ## Text import: separator, fields, lines -/

/-- C4 (delimiter sniff rule). For every text whose first line is non-blank, that line is
the header line, the separator chosen is the tab exactly when the line holds strictly more
tabs than commas and the comma otherwise (ties included), and this one separator splits every
non-blank line of the file. -/
theorem sniffSeparator_first_line_rule (content : QString) (w : DataEditorWidget)
    (hfirst : (QTextStream.readLine ⟨content⟩).1.trimmed ≠ []) :
    (sniffSeparator content = '\t' ↔
      List.count ',' (QTextStream.readLine ⟨content⟩).1
        < List.count '\t' (QTextStream.readLine ⟨content⟩).1) ∧
    (sniffSeparator content = ',' ↔
      List.count '\t' (QTextStream.readLine ⟨content⟩).1
        ≤ List.count ',' (QTextStream.readLine ⟨content⟩).1) ∧
    (∃ rest, nonBlankLines content = (QTextStream.readLine ⟨content⟩).1 :: rest) ∧
    loadTextBasedFile content w = some (true,
      importLines (sniffSeparator content) (nonBlankLines content) true w) := by
  have hne : content ≠ [] := by
    intro h
    subst h
    exact hfirst (by decide)
  have hsniff := sniffSeparator_eq content
  have hcomma : List.count ',' (QTextStream.readLine ⟨content⟩).1
      = List.count ',' (content.takeWhile (fun c => c != '\n')) :=
    QTextStream.count_chopCR ',' (by decide) _
  have htab : List.count '\t' (QTextStream.readLine ⟨content⟩).1
      = List.count '\t' (content.takeWhile (fun c => c != '\n')) :=
    QTextStream.count_chopCR '\t' (by decide) _
  rw [hcomma, htab, hsniff]
  refine ⟨?_, ?_, ?_, ?_⟩
  · split
    · simp [*]
    · rename_i h
      simp [h]
  · split
    · rename_i h
      simp
      exact h
    · rename_i h
      simpa using h
  · refine ⟨nonBlankLines (QTextStream.readLine ⟨content⟩).2.buffer, ?_⟩
    have hstep := nonBlankLines_step content
    have hb : (QTextStream.readLine ⟨content⟩).1.trimmed.isEmpty = false := by
      simpa using hfirst
    rw [hb] at hstep
    simpa using hstep
  · rw [loadTextBasedFile_eq, if_neg hne, hsniff]

/-- Witness of C4 on the two example lines of the specification: two commas against two tabs
select the comma, one comma against two tabs selects the tab. -/
theorem sniffSeparator_first_line_rule_witness :
    sniffSeparator "a,b\tc,d\te".toList = ',' ∧ sniffSeparator "a\tb\tc,d".toList = '\t' :=
  ⟨(sniffSeparator_first_line_rule "a,b\tc,d\te".toList initial (by decide)).2.1.mpr (by decide),
   (sniffSeparator_first_line_rule "a\tb\tc,d".toList initial (by decide)).1.mpr (by decide)⟩

/-- C5, counterexample. The text made of an empty line, the header `a<TAB>b` and the row
`1<TAB>2`: its first line is blank, its first non-blank line holds one tab and no comma, yet
the separator chosen is the comma, and the import yields a single column whose label is the
unsplit header line. -/
theorem sniffSeparator_first_nonblank_counterexample :
    (QTextStream.readLine ⟨"\na\tb\n1\t2".toList⟩).1.trimmed = [] ∧
    nonBlankLines "\na\tb\n1\t2".toList = ["a\tb".toList, "1\t2".toList] ∧
    List.count ',' "a\tb".toList < List.count '\t' "a\tb".toList ∧
    sniffSeparator "\na\tb\n1\t2".toList = ',' ∧
    loadTextBasedFile "\na\tb\n1\t2".toList initial = some (true,
      ⟨⟨[some "a\tb".toList], [[some "1\t2".toList]]⟩,
       [⟨"a\tb".toList, WellTestColumnType.Custom, [], false, 3⟩]⟩) := by
  decide

/-- C5, amended. The sniff reads the literal first line of the text, blank or not: for a
text that begins with a blank line, the separator is the tab exactly when that blank line
itself holds strictly more tabs than commas, and the comma otherwise, whatever the later
lines hold; the blank line yields no row, and the separator so chosen splits every non-blank
line. -/
theorem sniffSeparator_blank_first_line (blank rest : QString) (w : DataEditorWidget)
    (hnl : '\n' ∉ blank) (hblank : blank.trimmed = []) :
    (sniffSeparator (blank ++ '\n' :: rest) = '\t' ↔
      List.count ',' blank < List.count '\t' blank) ∧
    (sniffSeparator (blank ++ '\n' :: rest) = ',' ↔
      List.count '\t' blank ≤ List.count ',' blank) ∧
    nonBlankLines (blank ++ '\n' :: rest) = nonBlankLines rest ∧
    loadTextBasedFile (blank ++ '\n' :: rest) w = some (true,
      importLines (sniffSeparator (blank ++ '\n' :: rest)) (nonBlankLines rest) true w) := by
  have hsplit := QString.takeWhile_append_sep '\n' blank rest hnl
  have hsniff := sniffSeparator_eq (blank ++ '\n' :: rest)
  rw [hsplit.1] at hsniff
  have hlines : nonBlankLines (blank ++ '\n' :: rest) = nonBlankLines rest := by
    have hstep := nonBlankLines_step (blank ++ '\n' :: rest)
    simp only [QTextStream.readLine, hsplit.1, hsplit.2, List.drop_succ_cons, List.drop_zero,
      blank_chopCR blank hblank, List.isEmpty_nil, if_true, List.nil_append] at hstep
    exact hstep
  have hne : blank ++ '\n' :: rest ≠ [] := by simp
  refine ⟨?_, ?_, hlines, ?_⟩
  · rw [hsniff]
    split
    · simp [*]
    · rename_i h
      simp [h]
  · rw [hsniff]
    split
    · rename_i h
      simp
      exact h
    · rename_i h
      simpa using h
  · rw [loadTextBasedFile_eq, if_neg hne, hlines]

/-- Witness of amended C5: after an empty first line a tab-separated table is split on
commas, and after a first line made of one tab a comma-separated header is split on tabs. -/
theorem sniffSeparator_blank_first_line_witness :
    sniffSeparator ([] ++ '\n' :: "a\tb\n1\t2".toList) = ',' ∧
    sniffSeparator ("\t".toList ++ '\n' :: "a,b".toList) = '\t' :=
  ⟨(sniffSeparator_blank_first_line [] "a\tb\n1\t2".toList initial
      (by decide) (by decide)).2.1.mpr (by decide),
   (sniffSeparator_blank_first_line "\t".toList "a,b".toList initial
      (by decide) (by decide)).1.mpr (by decide)⟩

/-- C6, failing input. A field made of a single double quote both starts and ends with a
double quote, so the source calls `mid(1, -1)` on it and stores the empty string instead of
the field itself; an import shows the quote vanishing from the header and from the row. -/
theorem stripField_single_quote :
    QString.trimmed "\"".toList = "\"".toList ∧
    ("\"".toList).length = 1 ∧
    stripField "\"".toList = [] ∧
    stripField "\"".toList ≠ QString.trimmed "\"".toList ∧
    extractFields "a,\"".toList ',' = ["a".toList, []] ∧
    loadFileInternal false (SourceFile.readable "a,\"\n1,\"".toList QJsonDocument.null) initial
      = some (true, ⟨⟨[some "a".toList, some []], [[some "1".toList, some []]]⟩,
          [⟨"a".toList, WellTestColumnType.Custom, [], false, 3⟩,
           ⟨[], WellTestColumnType.Custom, [], false, 3⟩]⟩) := by
  decide

/-- Field extraction away from the single-quote field: a trimmed field of length at least 2
that starts and ends with a double quote loses exactly its first and its last character, and
a trimmed field that does not both start and end with a double quote is stored as it is. -/
theorem stripField_spec (raw : QString) :
    (2 ≤ (QString.trimmed raw).length → QString.startsWith (QString.trimmed raw) '"' = true →
      QString.endsWith (QString.trimmed raw) '"' = true →
      stripField raw = ((QString.trimmed raw).drop 1).dropLast) ∧
    (¬ (QString.startsWith (QString.trimmed raw) '"' = true ∧
        QString.endsWith (QString.trimmed raw) '"' = true) →
      stripField raw = QString.trimmed raw) := by
  constructor
  · intro hlen hs he
    have h1 : ¬ ((1 : Int) > ((QString.trimmed raw).length : Int)) := by omega
    have h2 : ¬ (((QString.trimmed raw).length : Int) - 2 < 0 ∨
        ((QString.trimmed raw).length : Int) - 2 >
          ((QString.trimmed raw).length : Int) - 1) := by omega
    have h3 : (((QString.trimmed raw).length : Int) - 2).toNat
        = (QString.trimmed raw).length - 2 := by omega
    simp only [stripField, hs, he, Bool.and_self, if_true, QString.mid, h1, if_false,
      show ¬ ((1 : Int) < 0) by omega, h2, h3, Int.toNat_one]
    rw [List.dropLast_eq_take, List.length_drop]
    congr 1
  · intro h
    have hb : (QString.startsWith (QString.trimmed raw) '"'
        && QString.endsWith (QString.trimmed raw) '"') = false := by
      cases hs : QString.startsWith (QString.trimmed raw) '"' <;>
        cases he : QString.endsWith (QString.trimmed raw) '"' <;> simp_all
    simp only [stripField, hb, Bool.false_eq_true, if_false]

theorem split_eq_splitOn (separator : Char) (line : QString) :
    QString.split line separator = List.splitOn separator line := by
  unfold List.splitOn
  induction line with
  | nil => simp [QString.split, List.splitOnP_nil]
  | cons c cs ih =>
    rw [QString.split, List.splitOnP_cons]
    by_cases h : c = separator
    · subst h
      simp [ih]
    · have hb : (c == separator) = false := by simpa using h
      rw [if_neg h, hb, ih]
      simp only [Bool.false_eq_true, if_false]
      cases hs : List.splitOnP (fun x => x == separator) cs with
      | nil => exact absurd hs (List.splitOnP_ne_nil _ _)
      | cons f fs => simp

theorem stripField_eq_specField (raw : QString) (h : QString.trimmed raw ≠ ['"']) :
    stripField raw = specField raw := by
  have hspec := stripField_spec raw
  unfold specField
  by_cases hb : QString.startsWith (QString.trimmed raw) '"' = true ∧
      QString.endsWith (QString.trimmed raw) '"' = true
  · have hlen : 2 ≤ (QString.trimmed raw).length := by
      cases ht : QString.trimmed raw with
      | nil => rw [ht] at hb; simp [QString.startsWith] at hb
      | cons c cs =>
        cases cs with
        | nil =>
          rw [ht] at hb h
          have hc : c = '"' := by simpa [QString.startsWith] using hb.1
          exact absurd (by rw [hc]) h
        | cons c2 cs2 => simp
    rw [if_pos ⟨hlen, hb.1, hb.2⟩]
    exact hspec.1 hlen hb.1 hb.2
  · have hn : ¬ (2 ≤ (QString.trimmed raw).length ∧
        QString.startsWith (QString.trimmed raw) '"' = true ∧
        QString.endsWith (QString.trimmed raw) '"' = true) := fun h3 => hb h3.2
    rw [if_neg hn]
    exact hspec.2 hb

theorem extractFields_eq_specFields (line : QString) (separator : Char)
    (h : ∀ raw ∈ List.splitOn separator line, QString.trimmed raw ≠ ['"']) :
    extractFields line separator = specFields line separator := by
  unfold extractFields specFields
  rw [split_eq_splitOn]
  apply List.map_congr_left
  intro raw hraw
  exact stripField_eq_specField raw (h raw hraw)

theorem widest_ge (rows : List (List QString)) : ∀ n : Nat, n ≤ widest n rows := by
  induction rows with
  | nil => intro n; exact Nat.le_refl n
  | cons r rs ih =>
    intro n
    exact le_trans (le_max_left n r.length) (ih (max n r.length))

/-- C7, counterexample. The text with the header `a,b` and the data line `2,3,4`: the
extracted fields of the header line are `a` and `b`, yet after the import the table has
three columns whose header labels are `a`, `b` and `3`, so the header labels are not the
fields of the first non-blank line. -/
theorem loadTextBasedFile_header_counterexample :
    nonBlankLines "a,b\n2,3,4".toList = ["a,b".toList, "2,3,4".toList] ∧
    specFields "a,b".toList (specSeparator "a,b\n2,3,4".toList) = ["a".toList, "b".toList] ∧
    ∃ w1, loadFileInternal false
        (SourceFile.readable "a,b\n2,3,4".toList QJsonDocument.null) initial = some (true, w1) ∧
      w1.m_dataModel.columnCount = 3 ∧
      headerTexts w1.m_dataModel = ["a".toList, "b".toList, "3".toList] ∧
      headerTexts w1.m_dataModel
        ≠ specFields "a,b".toList (specSeparator "a,b\n2,3,4".toList) :=
  ⟨by decide, by decide, _, rfl, by decide, by decide, by decide⟩

/-- C7, amended. Let `l0 :: rest` be the non-blank lines of the imported text, none of
whose fields is a lone double quote, and let the separator and the fields be those of the
specification (`specSeparator`, `specFields`). After the import the table has as many
columns as the longest of these lines has fields; the first columns carry the fields of `l0`
as header labels, every further column (present only when a data line is longer than the
header) has no header item and shows its column number as label; there is one default
column definition (type `Custom`) per header field, named after it; and the rows are, in
order, the lines of `rest`: row `i` holds an item in column `j` exactly when line `i` has a field
`j`, and that item is the field. A line has as many fields as it has separators, plus one. -/
theorem loadTextBasedFile_parse_result (content : QString) (doc : QJsonDocument)
    (w : DataEditorWidget) (l0 : QString) (rest : List QString)
    (hlines : nonBlankLines content = l0 :: rest)
    (hq : ∀ l ∈ l0 :: rest, ∀ raw ∈ List.splitOn (specSeparator content) l,
      QString.trimmed raw ≠ ['"']) :
    loadFileInternal false (SourceFile.readable content doc) w = some (true,
      ⟨⟨padTo (widest (specFields l0 (specSeparator content)).length
            (rest.map (fun l => specFields l (specSeparator content))))
          ((specFields l0 (specSeparator content)).map some),
        (rest.map (fun l => specFields l (specSeparator content))).map (fun f =>
          padTo (widest (specFields l0 (specSeparator content)).length
            (rest.map (fun l => specFields l (specSeparator content)))) (f.map some))⟩,
       (specFields l0 (specSeparator content)).map
         (fun h => ⟨h, WellTestColumnType.Custom, [], false, 3⟩)⟩) ∧
    (∀ w1, loadFileInternal false (SourceFile.readable content doc) w = some (true, w1) →
      w1.m_dataModel.columnCount = widest (specFields l0 (specSeparator content)).length
        (rest.map (fun l => specFields l (specSeparator content))) ∧
      w1.m_dataModel.rowCount = rest.length ∧
      (∀ j, j < (specFields l0 (specSeparator content)).length →
        w1.m_dataModel.columnHeaderItems[j]?
          = some ((specFields l0 (specSeparator content))[j]?) ∧
        some (w1.m_dataModel.headerData j) = (specFields l0 (specSeparator content))[j]?) ∧
      (∀ j, (specFields l0 (specSeparator content)).length ≤ j →
        j < w1.m_dataModel.columnCount →
        w1.m_dataModel.columnHeaderItems[j]? = some none ∧
        w1.m_dataModel.headerData j = (Nat.repr (j + 1)).toList) ∧
      w1.m_columnDefinitions = (specFields l0 (specSeparator content)).map
        (fun h => ⟨h, WellTestColumnType.Custom, [], false, 3⟩) ∧
      ∀ i j, w1.m_dataModel.item i j
        = (rest[i]?).bind (fun l => (specFields l (specSeparator content))[j]?)) ∧
    (∀ l : QString, (specFields l (specSeparator content)).length
      = List.count (specSeparator content) l + 1) := by
  have hne : content ≠ [] := by
    intro h
    subst h
    rw [nonBlankLines_nil] at hlines
    cases hlines
  have hsep : sniffSeparator content = specSeparator content := sniffSeparator_eq content
  have hH : extractFields l0 (specSeparator content) = specFields l0 (specSeparator content) :=
    extractFields_eq_specFields l0 _ (hq l0 (List.mem_cons_self l0 rest))
  have hR : rest.map (fun l => extractFields l (specSeparator content))
      = rest.map (fun l => specFields l (specSeparator content)) := by
    apply List.map_congr_left
    intro l hl
    exact extractFields_eq_specFields l _ (hq l (List.mem_cons_of_mem l0 hl))
  have hload : loadFileInternal false (SourceFile.readable content doc) w = some (true,
      importLines (sniffSeparator content) (l0 :: rest) true ⟨w.m_dataModel.clear, []⟩) := by
    simp only [loadFileInternal, Bool.false_eq_true, if_false, detectAndReadText,
      loadTextBasedFile_eq, if_neg hne, hlines]
  rw [importLines_from_cleared, hsep, hR, hH] at hload
  have hwide := widest_ge (rest.map (fun l => specFields l (specSeparator content)))
    (specFields l0 (specSeparator content)).length
  refine ⟨hload, ?_, ?_⟩
  · intro w1 h1
    rw [hload] at h1
    simp only [Option.some.injEq, Prod.mk.injEq, true_and] at h1
    subst h1
    have hcols : (padTo (widest (specFields l0 (specSeparator content)).length
          (rest.map (fun l => specFields l (specSeparator content))))
        ((specFields l0 (specSeparator content)).map some)).length
        = widest (specFields l0 (specSeparator content)).length
          (rest.map (fun l => specFields l (specSeparator content))) :=
      padTo_length _ _ (by simpa using hwide)
    refine ⟨hcols, by simp [QStandardItemModel.rowCount], ?_, ?_, rfl, ?_⟩
    · intro j hj
      have hitem : (padTo (widest (specFields l0 (specSeparator content)).length
            (rest.map (fun l => specFields l (specSeparator content))))
          ((specFields l0 (specSeparator content)).map some))[j]?
          = some ((specFields l0 (specSeparator content))[j]?) := by
        simp only [padTo]
        rw [List.getElem?_append_left (by simpa using hj)]
        simp [List.getElem?_map, hj]
      refine ⟨hitem, ?_⟩
      simp only [QStandardItemModel.headerData, List.get?_eq_getElem?, hitem]
      rw [List.getElem?_eq_getElem hj]
    · intro j hj hjc
      have hjc1 : j < widest (specFields l0 (specSeparator content)).length
          (rest.map (fun l => specFields l (specSeparator content))) := by
        simpa only [QStandardItemModel.columnCount, hcols] using hjc
      have hitem : (padTo (widest (specFields l0 (specSeparator content)).length
            (rest.map (fun l => specFields l (specSeparator content))))
          ((specFields l0 (specSeparator content)).map some))[j]? = some none := by
        simp only [padTo]
        rw [List.getElem?_append_right (by simpa using hj)]
        simp only [List.length_map, List.getElem?_replicate]
        rw [if_pos (by omega)]
      refine ⟨hitem, ?_⟩
      simp only [QStandardItemModel.headerData, List.get?_eq_getElem?, hitem]
    · intro i j
      simp only [QStandardItemModel.item, List.getD_eq_getElem?_getD, List.getElem?_map, padTo]
      cases hi : rest[i]? with
      | none => simp
      | some l =>
        simp only [Option.map_some', Option.getD_some, Option.some_bind]
        have := padTo_getD (specFields l (specSeparator content))
          (widest (specFields l0 (specSeparator content)).length
            (rest.map (fun l => specFields l (specSeparator content)))
            - (List.map some (specFields l (specSeparator content))).length) j
        simpa [List.getD_eq_getElem?_getD] using this
  · intro l
    simp [specFields, ← split_eq_splitOn, QString.split_length]

/-- Witness of amended C7: a comma-separated text with a blank line, a quoted header field,
a short row and a long row. -/
theorem loadTextBasedFile_parse_result_witness :
    nonBlankLines "a, \"b\" \n\n1\n2,3,4\n".toList
      = ["a, \"b\" ".toList, "1".toList, "2,3,4".toList] ∧
    loadFileInternal false
        (SourceFile.readable "a, \"b\" \n\n1\n2,3,4\n".toList QJsonDocument.null) sampleEditor
      = some (true,
        ⟨⟨[some "a".toList, some "b".toList, none],
          [[some "1".toList, none, none],
           [some "2".toList, some "3".toList, some "4".toList]]⟩,
         [⟨"a".toList, WellTestColumnType.Custom, [], false, 3⟩,
          ⟨"b".toList, WellTestColumnType.Custom, [], false, 3⟩]⟩) :=
  ⟨by decide,
   (loadTextBasedFile_parse_result "a, \"b\" \n\n1\n2,3,4\n".toList QJsonDocument.null
      sampleEditor "a, \"b\" ".toList ["1".toList, "2,3,4".toList] (by decide)
      (by decide)).1.trans (by decide)⟩

/-! ## Import failures -/

/-- C8 (failure exactly on the empty text). On the empty text `loadTextBasedFile` returns
false and leaves the editor state as it was; on every non-empty text it returns true, also
when the text holds blank lines only (nothing is imported then). -/
theorem loadTextBasedFile_fails_iff_empty (content : QString) (w : DataEditorWidget) :
    loadTextBasedFile [] w = some (false, w) ∧
    (∃ w1, loadTextBasedFile content w = some (!content.isEmpty, w1)) ∧
    (∀ w1, loadTextBasedFile content w = some (false, w1) → content = [] ∧ w1 = w) ∧
    (content ≠ [] → nonBlankLines content = [] → loadTextBasedFile content w = some (true, w)) := by
  refine ⟨rfl, ?_, ?_, ?_⟩
  · rw [loadTextBasedFile_eq]
    by_cases h : content = []
    · subst h
      exact ⟨w, rfl⟩
    · have hne : content.isEmpty = false := by simpa using h
      rw [if_neg h, hne]
      exact ⟨_, rfl⟩
  · intro w1 h1
    exact loadTextBasedFile_false_inv content w w1 h1
  · intro h hblank
    rw [loadTextBasedFile_eq, if_neg h, hblank]
    rfl

/-- Witness of C8: the empty text fails and changes nothing; a text of blank lines only
succeeds. -/
theorem loadTextBasedFile_fails_iff_empty_witness :
    loadTextBasedFile [] sampleEditor = some (false, sampleEditor) ∧
    loadTextBasedFile " \n\t\n".toList sampleEditor = some (true, sampleEditor) :=
  ⟨(loadTextBasedFile_fails_iff_empty [] sampleEditor).1,
   (loadTextBasedFile_fails_iff_empty " \n\t\n".toList sampleEditor).2.2.2
     (by decide) (by decide)⟩

/-- C9, counterexample. Starting from the sample editor (two columns, two rows, two typed
column definitions), each failing import (unopenable text file, empty decoded text,
unopenable JSON file, JSON root that is no array) returns false and leaves an empty table
and an empty list of definitions, which differ from what the editor held before. -/
theorem loadFileInternal_failure_counterexample :
    loadFileInternal false SourceFile.unreadable sampleEditor = some (false, initial) ∧
    loadFileInternal false (SourceFile.readable [] QJsonDocument.null) sampleEditor
      = some (false, initial) ∧
    loadFileInternal true SourceFile.unreadable sampleEditor = some (false, initial) ∧
    loadFileInternal true (SourceFile.readable "7".toList QJsonDocument.null) sampleEditor
      = some (false, initial) ∧
    initial.m_dataModel ≠ sampleEditor.m_dataModel ∧
    initial.m_columnDefinitions ≠ sampleEditor.m_columnDefinitions := by
  decide

/-- C9, amended. `loadFileInternal` always returns; when it reports failure, the cause is an
unopenable file or an empty decoded text (text path) or an unopenable file or a root that is
no array (JSON path), and the table and the definition list are then empty, whatever they
held before the call: the state is cleared before the loader runs, and the failing loader
itself changes nothing. -/
theorem loadFileInternal_failure_clears (pathIsJson : Bool) (file : SourceFile)
    (w w1 : DataEditorWidget)
    (hfail : loadFileInternal pathIsJson file w = some (false, w1)) :
    w1.m_dataModel = ⟨[], []⟩ ∧ w1.m_columnDefinitions = [] ∧
    ((pathIsJson = false ∧ detectAndReadText file = []) ∨
     (pathIsJson = true ∧ (∀ text doc, file = SourceFile.readable text doc →
        doc.isArray = false))) := by
  cases pathIsJson with
  | false =>
    simp only [loadFileInternal, Bool.false_eq_true, if_false] at hfail
    have h := loadTextBasedFile_false_inv (detectAndReadText file)
      ⟨w.m_dataModel.clear, []⟩ w1 hfail
    refine ⟨?_, ?_, Or.inl ⟨rfl, h.1⟩⟩
    · rw [h.2]
      rfl
    · rw [h.2]
  | true =>
    simp only [loadFileInternal, if_true, Option.some.injEq] at hfail
    cases file with
    | unreadable =>
      simp only [loadJson, Prod.mk.injEq, true_and] at hfail
      subst hfail
      exact ⟨rfl, rfl, Or.inr ⟨rfl, fun _ _ h => by cases h⟩⟩
    | readable text doc =>
      cases harr : doc.isArray with
      | true => simp [loadJson, harr] at hfail
      | false =>
        simp only [loadJson, harr, Bool.false_eq_true, if_false, Prod.mk.injEq,
          true_and] at hfail
        subst hfail
        refine ⟨rfl, rfl, Or.inr ⟨rfl, ?_⟩⟩
        intro t d h
        cases h
        exact harr

/-- Witness of amended C9: the failing import of an unopenable text file over the sample
editor. -/
theorem loadFileInternal_failure_clears_witness :
    loadFileInternal false SourceFile.unreadable sampleEditor = some (false, initial) ∧
    initial.m_dataModel = ⟨[], []⟩ ∧ initial.m_columnDefinitions = [] :=
  ⟨by decide,
   (loadFileInternal_failure_clears false SourceFile.unreadable sampleEditor initial
      (by decide)).1,
   (loadFileInternal_failure_clears false SourceFile.unreadable sampleEditor initial
      (by decide)).2.1⟩

/-! ## Table mutations and the definition list -/

/-- Slot `onAddCol` keeps the definition list as long as the column count. -/
theorem onAddCol_sync (w : DataEditorWidget)
    (h : w.m_columnDefinitions.length = w.m_dataModel.columnCount) :
    (onAddCol w).m_columnDefinitions.length = (onAddCol w).m_dataModel.columnCount := by
  obtain ⟨⟨hdr, ch⟩, defs⟩ := w
  simp only [QStandardItemModel.columnCount] at h
  simp only [onAddCol, QStandardItemModel.insertColumn, QStandardItemModel.columnCount,
    gt_iff_lt, lt_self_iff_false, if_false, List.take_length, List.drop_length,
    QStandardItemModel.setHeaderData, List.length_append, List.length_cons, List.length_nil]
  split <;> simp [h]

/-- Slot `onDeleteCol` keeps the definition list as long as the column count. -/
theorem onDeleteCol_sync (selectedCols : List Nat) (w : DataEditorWidget)
    (h : w.m_columnDefinitions.length = w.m_dataModel.columnCount) :
    (onDeleteCol selectedCols w).m_columnDefinitions.length
      = (onDeleteCol selectedCols w).m_dataModel.columnCount := by
  unfold onDeleteCol
  split
  · exact h
  · generalize List.insertionSort (fun a b => b ≤ a) selectedCols = cols
    induction cols generalizing w with
    | nil => exact h
    | cons c cs ih =>
      rw [List.foldl_cons]
      apply ih
      by_cases hc : c < w.m_dataModel.columnCount
      · have hc1 : c < w.m_columnDefinitions.length := by omega
        have hc2 : c < w.m_dataModel.columnHeaderItems.length := hc
        simp [QStandardItemModel.removeColumn, hc, hc1, QStandardItemModel.columnCount,
          List.length_eraseIdx, hc2, h]
      · have hc1 : ¬ c < w.m_columnDefinitions.length := by omega
        simp [QStandardItemModel.removeColumn, hc, hc1, h]

/-- C10, failing input. The freshly constructed editor satisfies the synchronisation
invariant; `onAddRow` on it creates one column and one row but no column definition, so
the list of definitions (length 0) no longer matches the column count (1). The sibling slot
`onAddCol` does append a definition for the column it creates. The same mismatch follows a
text import whose data line is longer than the header and a document without header record. -/
theorem onAddRow_breaks_sync :
    initial.m_columnDefinitions.length = initial.m_dataModel.columnCount ∧
    (onAddRow none initial).m_dataModel = ⟨[none], [[some []]]⟩ ∧
    (onAddRow none initial).m_dataModel.columnCount = 1 ∧
    (onAddRow none initial).m_columnDefinitions.length = 0 ∧
    (onAddCol initial).m_dataModel.columnCount = 1 ∧
    (onAddCol initial).m_columnDefinitions.length = 1 ∧
    (∃ w1, loadFileInternal false (SourceFile.readable "a\n1,2".toList QJsonDocument.null)
        initial = some (true, w1) ∧
      w1.m_dataModel.columnCount = 2 ∧ w1.m_columnDefinitions.length = 1) ∧
    (deserializeJsonToModel [QJsonValue.null, rowRecord ["1".toList]]
        initial).m_dataModel.columnCount = 1 ∧
    (deserializeJsonToModel [QJsonValue.null, rowRecord ["1".toList]]
        initial).m_columnDefinitions.length = 0 := by
  refine ⟨by decide, by decide, by decide, by decide, by decide, by decide, ?_, by decide,
    by decide⟩
  exact ⟨_, rfl, by decide, by decide⟩

/-! ## Batch deletion -/

namespace DataEditorWidget

end DataEditorWidget

/-- C12 (adding a row). With a current index that, when valid, lies on an existing row:
on a table with no column and no row `onAddRow` yields exactly one column and one row whose
single cell holds the empty string; on a table with `c > 0` columns it inserts, right after
the current row (at the end without a current index), one row of exactly `c` cells that
all hold the empty string, so the row count grows by one, while the header items and all
earlier rows keep their cells and their relative order. -/
theorem onAddRow_inserts_empty_row (w : DataEditorWidget) (currentRow : Option Nat)
    (hcur : ∀ r, currentRow = some r → r < w.m_dataModel.rowCount) :
    (w.m_dataModel.columnCount = 0 → w.m_dataModel.rowCount = 0 →
      (onAddRow currentRow w).m_dataModel = ⟨[none], [[some []]]⟩ ∧
      (onAddRow currentRow w).m_dataModel.columnCount = 1 ∧
      (onAddRow currentRow w).m_dataModel.rowCount = 1 ∧
      (onAddRow currentRow w).m_dataModel.item 0 0 = some []) ∧
    (0 < w.m_dataModel.columnCount →
      (onAddRow currentRow w).m_dataModel.columnHeaderItems = w.m_dataModel.columnHeaderItems ∧
      (onAddRow currentRow w).m_dataModel.children
        = w.m_dataModel.children.take (match currentRow with
            | some r => r + 1
            | none => w.m_dataModel.rowCount)
          ++ List.replicate w.m_dataModel.columnCount (some [])
          :: w.m_dataModel.children.drop (match currentRow with
            | some r => r + 1
            | none => w.m_dataModel.rowCount) ∧
      (onAddRow currentRow w).m_dataModel.rowCount = w.m_dataModel.rowCount + 1) := by
  obtain ⟨⟨hdr, ch⟩, defs⟩ := w
  simp only [QStandardItemModel.columnCount, QStandardItemModel.rowCount] at hcur ⊢
  have hins : ∀ pos, pos ≤ ch.length →
      QStandardItemModel.insertRow ⟨hdr, ch⟩ pos (List.replicate hdr.length ([] : QString))
        = ⟨hdr, ch.take pos ++ List.replicate hdr.length (some []) :: ch.drop pos⟩ := by
    intro pos hpos
    have hnot : ¬ pos > ch.length := by omega
    have htake : List.take hdr.length (List.replicate hdr.length (some ([] : QString)))
        = List.replicate hdr.length (some []) := List.take_of_length_le (by simp)
    simp only [QStandardItemModel.insertRow, QStandardItemModel.columnCount,
      QStandardItemModel.rowCount, List.length_replicate, lt_self_iff_false, if_false, hnot,
      Nat.sub_self, List.replicate_zero, List.append_nil, List.map_replicate, htake]
  have hlen : ∀ pos, pos ≤ ch.length →
      (ch.take pos ++ List.replicate hdr.length (some ([] : QString)) :: ch.drop pos).length
        = ch.length + 1 := by
    intro pos hpos
    simp only [List.length_append, List.length_take, List.length_cons, List.length_drop]
    omega
  cases currentRow with
  | none =>
    constructor
    · intro hc hr
      have hh : hdr = [] := List.length_eq_zero.mp hc
      have hch : ch = [] := List.length_eq_zero.mp hr
      subst hh hch
      exact ⟨rfl, rfl, rfl, rfl⟩
    · intro hc
      simp only [onAddRow, QStandardItemModel.columnCount, QStandardItemModel.rowCount, hc,
        if_true, hins ch.length (Nat.le_refl _)]
      exact ⟨trivial, trivial, hlen ch.length (Nat.le_refl _)⟩
  | some r =>
    have hr : r < ch.length := hcur r rfl
    constructor
    · intro _ h0
      omega
    · intro hc
      simp only [onAddRow, QStandardItemModel.columnCount, QStandardItemModel.rowCount, hc,
        if_true, hins (r + 1) hr]
      exact ⟨trivial, trivial, hlen (r + 1) hr⟩

/-- Witness of C12 on the sample table (two columns, two rows) with the current index on
row 0: the new row of two empty cells sits between the two old rows. -/
theorem onAddRow_inserts_empty_row_witness :
    (onAddRow (some 0) sampleEditor).m_dataModel.children
      = [[some "0".toList, some "1.5".toList], [some [], some []],
         [some "1".toList, some "1.4".toList]] ∧
    (onAddRow none initial).m_dataModel = ⟨[none], [[some []]]⟩ :=
  ⟨((onAddRow_inserts_empty_row sampleEditor (some 0) (by decide)).2 (by decide)).2.1.trans
      (by decide),
   ((onAddRow_inserts_empty_row initial none (by decide)).1 (by decide) (by decide)).1⟩

/-! ## Serialising reachable tables -/

/-- C18, failing input. From the freshly constructed editor, `onAddRow` then `onAddCol`
give a table with one row and two columns in which the cell (0, 1) has no item; the same
happens after the import of a text whose data line is shorter than its header. In both
tables `serializeModelToJson` reads that missing cell, so it has no defined result. -/
theorem serializeModelToJson_reads_missing_cell :
    (onAddCol (onAddRow none initial)).m_dataModel.rowCount = 1 ∧
    (onAddCol (onAddRow none initial)).m_dataModel.columnCount = 2 ∧
    (onAddCol (onAddRow none initial)).m_dataModel.item 0 1 = none ∧
    serializeModelToJson (onAddCol (onAddRow none initial)) = none ∧
    (∃ w1, loadFileInternal false (SourceFile.readable "a,b\n1".toList QJsonDocument.null)
        initial = some (true, w1) ∧
      w1.m_dataModel.rowCount = 1 ∧ w1.m_dataModel.columnCount = 2 ∧
      w1.m_dataModel.item 0 1 = none ∧ serializeModelToJson w1 = none) := by
  refine ⟨by decide, by decide, by decide, rfl, ?_⟩
  exact ⟨_, rfl, by decide, by decide, by decide, rfl⟩

/-! ## The dialog: unit vocabularies and type switches -/

namespace DataColumnDialog

theorem updateUnitsForType_eq (type : WellTestColumnType) (unitCombo : QComboBox) :
    updateUnitsForType type unitCombo = ⟨unitsForType type, 0, false, []⟩ := by
  obtain ⟨items, idx, ed, txt⟩ := unitCombo
  cases ed <;> cases type <;> rfl

theorem updatePreviewLabel_combos (row : ColumnRow) :
    (updatePreviewLabel row).typeCombo = row.typeCombo ∧
    (updatePreviewLabel row).unitCombo = row.unitCombo ∧
    (updatePreviewLabel row).requiredCheck = row.requiredCheck ∧
    (updatePreviewLabel row).columnName = row.columnName := by
  unfold updatePreviewLabel
  simp only []
  split <;> exact ⟨rfl, rfl, rfl, rfl⟩

end DataColumnDialog

open DataColumnDialog

/-- C17 (unit vocabulary shape). For each of the 18 column types the unit list installed by
`updateUnitsForType` depends on the type only (not on what the selector held), is not empty,
ends with the custom sentinel, holds that sentinel exactly once and has no duplicate. -/
theorem updateUnitsForType_vocabulary (type : WellTestColumnType) (unitCombo : QComboBox) :
    (updateUnitsForType type unitCombo).items = unitsForType type ∧
    (updateUnitsForType type unitCombo).items ≠ [] ∧
    (updateUnitsForType type unitCombo).items.getLast? = some "自定义".toList ∧
    List.count "自定义".toList (updateUnitsForType type unitCombo).items = 1 ∧
    (updateUnitsForType type unitCombo).items.Nodup := by
  rw [updateUnitsForType_eq]
  cases type <;> decide

/-- C16, counterexample. A Depth row whose selected unit is `ft`: after the switch to
WellRadius, whose vocabulary holds `ft`, the selected unit is `m`; after the switch to
Pressure, whose vocabulary does not hold `ft`, the concrete unit `MPa` is selected. -/
theorem onTypeChanged_unit_counterexample :
    (setupColumnRow "深度".toList
        (some ⟨"深度\\ft".toList, WellTestColumnType.Depth, "ft".toList, false, 3⟩)
      ).unitCombo.currentText = "ft".toList ∧
    "ft".toList ∈ unitsForType WellTestColumnType.WellRadius ∧
    (typeComboSetCurrentIndex 12 (setupColumnRow "深度".toList
        (some ⟨"深度\\ft".toList, WellTestColumnType.Depth, "ft".toList, false, 3⟩))
      ).unitCombo.currentText = "m".toList ∧
    "ft".toList ∉ unitsForType WellTestColumnType.Pressure ∧
    (typeComboSetCurrentIndex 4 (setupColumnRow "深度".toList
        (some ⟨"深度\\ft".toList, WellTestColumnType.Depth, "ft".toList, false, 3⟩))
      ).unitCombo.currentText = "MPa".toList := by
  decide

/-- C16, amended. After `onTypeChanged` to the type of index `index`, whatever unit the
row had selected, the unit selector lists exactly the vocabulary of the new type, is not
editable, and has its first entry selected. -/
theorem onTypeChanged_resets_unit (index : Int) (row : ColumnRow) :
    (onTypeChanged index row).unitCombo.items
      = unitsForType (WellTestColumnType.ofIndex index) ∧
    (onTypeChanged index row).unitCombo.editable = false ∧
    (onTypeChanged index row).unitCombo.currentIndex = 0 ∧
    (onTypeChanged index row).unitCombo.currentText
      = (unitsForType (WellTestColumnType.ofIndex index)).headD [] := by
  have h : (onTypeChanged index row).unitCombo
      = ⟨unitsForType (WellTestColumnType.ofIndex index), 0, false, []⟩ := by
    unfold onTypeChanged
    simp only []
    rw [(updatePreviewLabel_combos _).2.1, updateUnitsForType_eq]
  rw [h]
  refine ⟨rfl, rfl, rfl, ?_⟩
  cases WellTestColumnType.ofIndex index <;> rfl

/-! ## The dialog: display names -/

namespace QString

theorem scanArg_plain (t rest : QString) (h : '%' ∉ t) :
    scanArg ArgState.normal (t ++ rest)
      = t.map ArgToken.text ++ scanArg ArgState.normal rest := by
  induction t with
  | nil => rfl
  | cons c cs ih =>
    have hc : c ≠ '%' := fun e => h (e ▸ List.mem_cons_self c cs)
    have hcs : '%' ∉ cs := fun e => h (List.mem_cons_of_mem c e)
    have ih1 := ih hcs
    simp only [List.cons_append, scanArg, if_neg hc, List.map_cons]
    exact congrArg (fun l => ArgToken.text c :: l) ih1

theorem minEscape_plain (t : QString) (ts : List ArgToken) :
    minEscape (t.map ArgToken.text ++ ts) = minEscape ts := by
  induction t with
  | nil => rfl
  | cons c cs ih => simpa [minEscape] using ih

theorem flatten_plain (t : QString) (f : ArgToken → QString)
    (hf : ∀ c, f (ArgToken.text c) = [c]) :
    ((t.map ArgToken.text).map f).flatten = t := by
  induction t with
  | nil => rfl
  | cons c cs ih =>
    simp only [List.map_cons, List.flatten_cons, hf, ih]
    rfl

/-- The composition `QString("%1\\%2").arg(t).arg(u)` is `t`, a backslash, `u` whenever `t`
holds no percent sign. -/
theorem arg_arg_format (t u : QString) (h : '%' ∉ t) :
    arg (arg "%1\\%2".toList t) u = t ++ '\\' :: u := by
  have h1 : arg "%1\\%2".toList t = t ++ "\\%2".toList := by
    simp [arg, scanArg, digitValue, minEscape]
  have hscan := scanArg_plain t "\\%2".toList h
  have hrest : scanArg ArgState.normal "\\%2".toList
      = [ArgToken.text '\\', ArgToken.marker 2 "%2".toList] := by decide
  rw [h1]
  unfold arg
  rw [hscan, hrest, minEscape_plain]
  simp only [minEscape, List.map_append, List.flatten_append]
  rw [flatten_plain t _ (fun _ => rfl)]
  simp

end QString

namespace DataColumnDialog

/-- Display-name composition away from percent signs: for a row whose type text `t` holds
no percent sign, `getColumnDefinitions` gives the name `t`, backslash, `u` and the unit `u`
when `u` is a real unit, and the name `t` with an empty unit when `u` is empty, the
placeholder or the custom sentinel; the preview label always shows the name. -/
theorem definitionOfRow_spec (row : ColumnRow) :
    ((row.unitCombo.currentText = "-".toList ∨ row.unitCombo.currentText = [] ∨
        row.unitCombo.currentText = "自定义".toList) →
      (definitionOfRow row).name = row.typeCombo.currentText ∧
      (definitionOfRow row).unit = []) ∧
    (¬ (row.unitCombo.currentText = "-".toList ∨ row.unitCombo.currentText = [] ∨
        row.unitCombo.currentText = "自定义".toList) →
      (definitionOfRow row).unit = row.unitCombo.currentText ∧
      ('%' ∉ row.typeCombo.currentText →
        (definitionOfRow row).name
          = row.typeCombo.currentText ++ '\\' :: row.unitCombo.currentText)) ∧
    (updatePreviewLabel row).previewLabel = (definitionOfRow row).name := by
  have hempty : (row.unitCombo.currentText.isEmpty = true) ↔ row.unitCombo.currentText = [] :=
    List.isEmpty_iff
  refine ⟨?_, ?_, ?_⟩
  · intro h
    have h1 : row.unitCombo.currentText = "-".toList ∨
        row.unitCombo.currentText.isEmpty = true ∨
        row.unitCombo.currentText = "自定义".toList := by
      rcases h with h | h | h
      · exact Or.inl h
      · exact Or.inr (Or.inl (hempty.mpr h))
      · exact Or.inr (Or.inr h)
    simp only [definitionOfRow, h1, if_true]
    exact ⟨trivial, trivial⟩
  · intro h
    have h1 : ¬ (row.unitCombo.currentText = "-".toList ∨
        row.unitCombo.currentText.isEmpty = true ∨
        row.unitCombo.currentText = "自定义".toList) := by
      intro h2
      apply h
      rcases h2 with h2 | h2 | h2
      · exact Or.inl h2
      · exact Or.inr (Or.inl (hempty.mp h2))
      · exact Or.inr (Or.inr h2)
    simp only [definitionOfRow, h1, if_false]
    refine ⟨trivial, ?_⟩
    intro hp
    exact QString.arg_arg_format _ _ hp
  · unfold updatePreviewLabel definitionOfRow
    simp only []
    split <;> rfl

end DataColumnDialog

/-- C15, failing input. A row with the custom type text `%1` and the custom unit `m`: the
chained `arg` calls first put the type text in place of `%1` and then replace the `%1` of
that very text by the unit, so the definition is named `m\%2` instead of `%1\m`. Its unit
is `m` and the preview shows the same (wrong) name. -/
theorem getColumnDefinitions_percent_type :
    (setupColumnRow "x".toList
        (some ⟨"%1".toList, WellTestColumnType.Custom, "m".toList, false, 3⟩)
      ).typeCombo.currentText = "%1".toList ∧
    (setupColumnRow "x".toList
        (some ⟨"%1".toList, WellTestColumnType.Custom, "m".toList, false, 3⟩)
      ).unitCombo.currentText = "m".toList ∧
    getColumnDefinitions (create ["x".toList]
        [⟨"%1".toList, WellTestColumnType.Custom, "m".toList, false, 3⟩])
      = [⟨"m\\%2".toList, WellTestColumnType.Custom, "m".toList, false, 3⟩] ∧
    "m\\%2".toList ≠ "%1".toList ++ '\\' :: "m".toList ∧
    (setupColumnRow "x".toList
        (some ⟨"%1".toList, WellTestColumnType.Custom, "m".toList, false, 3⟩)
      ).previewLabel = "m\\%2".toList := by
  decide

/-! ## The dialog: preset inference -/

/-- C13, failing input. For the header `时刻` the rule chain picks type index 2 and unit
`hh:mm:ss`, but index 2 of `WellTestColumnType` is `Time`, whose vocabulary lacks that
unit: the stored type is `Time` and the stored unit is `h`. For the header `时间` it picks
index 3 and unit `h`, but index 3 is `TimeOfDay`, whose vocabulary lacks `h`: the stored
type is `TimeOfDay` and no unit is stored. The other four rules give what the rule table
says. -/
theorem onLoadPresetClicked_time_rules :
    presetRule (QString.asciiLower "时刻".toList) = (2, "hh:mm:ss".toList) ∧
    WellTestColumnType.ofIndex 2 = WellTestColumnType.Time ∧
    "hh:mm:ss".toList ∉ unitsForType WellTestColumnType.Time ∧
    presetRule (QString.asciiLower "时间".toList) = (3, "h".toList) ∧
    WellTestColumnType.ofIndex 3 = WellTestColumnType.TimeOfDay ∧
    "h".toList ∉ unitsForType WellTestColumnType.TimeOfDay ∧
    getColumnDefinitions (onLoadPresetClicked QString.asciiLower
        (create ["时刻".toList, "时间".toList] []))
      = [⟨"时刻\\h".toList, WellTestColumnType.Time, "h".toList, false, 3⟩,
         ⟨"时间".toList, WellTestColumnType.TimeOfDay, [], false, 3⟩] ∧
    getColumnDefinitions (onLoadPresetClicked QString.asciiLower
        (create ["序号".toList, "Date".toList, "压力".toList, "流量".toList] []))
      = [⟨"序号".toList, WellTestColumnType.SerialNumber, [], false, 3⟩,
         ⟨"日期\\yyyy-MM-dd".toList, WellTestColumnType.Date, "yyyy-MM-dd".toList, false, 3⟩,
         ⟨"压力\\MPa".toList, WellTestColumnType.Pressure, "MPa".toList, false, 3⟩,
         ⟨"流量\\m³/d".toList, WellTestColumnType.FlowRate, "m³/d".toList, false, 3⟩] := by
  decide

namespace QComboBox

theorem setCurrentIndex_valid (c : QComboBox) (k : Int) (h0 : 0 ≤ k)
    (hk : k < (c.items.length : Int)) :
    (c.setCurrentIndex k).items = c.items ∧ (c.setCurrentIndex k).currentIndex = k ∧
    (c.setCurrentIndex k).currentText = c.items.getD k.toNat [] := by
  obtain ⟨items, idx, ed, txt⟩ := c
  have hn : (0 ≤ k ∧ k < (items.length : Int)) := ⟨h0, hk⟩
  cases ed <;> simp [setCurrentIndex, currentText, itemText, hn, h0]

theorem setEditable_keeps (c : QComboBox) (b : Bool) (k : Int) (h0 : 0 ≤ k)
    (hidx : c.currentIndex = k) (htxt : c.currentText = c.items.getD k.toNat []) :
    (c.setEditable b).items = c.items ∧ (c.setEditable b).currentIndex = k ∧
    (c.setEditable b).currentText = c.items.getD k.toNat [] := by
  obtain ⟨items, idx, ed, txt⟩ := c
  simp only at hidx
  subst hidx
  cases ed <;> cases b <;>
    simp_all [setEditable, currentText, itemText]

end QComboBox

namespace DataColumnDialog

theorem typeComboSetCurrentIndex_result (k : Int) (h0 : 0 ≤ k)
    (row : ColumnRow) (hk : k < (row.typeCombo.items.length : Int)) :
    (typeComboSetCurrentIndex k row).typeCombo.items = row.typeCombo.items ∧
    (typeComboSetCurrentIndex k row).typeCombo.currentIndex = k ∧
    (typeComboSetCurrentIndex k row).typeCombo.currentText
      = row.typeCombo.items.getD k.toNat [] ∧
    (typeComboSetCurrentIndex k row).requiredCheck = row.requiredCheck := by
  have hset := QComboBox.setCurrentIndex_valid row.typeCombo k h0 hk
  have hed := QComboBox.setEditable_keeps (row.typeCombo.setCurrentIndex k)
    (decide (k = 17)) k h0 hset.2.1 (by rw [hset.2.2, hset.1])
  rw [hset.1] at hed
  unfold typeComboSetCurrentIndex
  simp only []
  split
  · simp only [onTypeChanged, hset.2.1, onCustomTextChanged]
    split
    · simp only [(updatePreviewLabel_combos _).1, (updatePreviewLabel_combos _).2.2.1]
      exact ⟨hed.1, hed.2.1, hed.2.2, trivial⟩
    · simp only [(updatePreviewLabel_combos _).1, (updatePreviewLabel_combos _).2.2.1]
      exact ⟨hed.1, hed.2.1, hed.2.2, trivial⟩
  · simp only [onCustomTextChanged]
    split
    · simp only [(updatePreviewLabel_combos _).1, (updatePreviewLabel_combos _).2.2.1]
      exact ⟨hset.1, hset.2.1, hset.2.2, trivial⟩
    · exact ⟨hset.1, hset.2.1, hset.2.2, rfl⟩

/-- Outcome of the preset on one row when the rule chain picks the type index `k` and a
unit that heads the vocabulary of that type. -/
theorem presetRow_result (toLower : QString → QString) (row : ColumnRow) (k : Int)
    (u : QString) (h0 : 0 ≤ k) (hk : k < (row.typeCombo.items.length : Int))
    (hrule : presetRule (toLower row.columnName) = (k, u))
    (hhead : ∃ rest, unitsForType (WellTestColumnType.ofIndex k) = u :: rest) :
    (presetRow toLower row).typeCombo.currentIndex = k ∧
    (presetRow toLower row).typeCombo.currentText = row.typeCombo.items.getD k.toNat [] ∧
    (presetRow toLower row).unitCombo
      = ⟨unitsForType (WellTestColumnType.ofIndex k), 0, false, []⟩ ∧
    (presetRow toLower row).requiredCheck = row.requiredCheck := by
  obtain ⟨rest, hrest⟩ := hhead
  have htype := typeComboSetCurrentIndex_result k h0 row hk
  have hfind : QComboBox.findText
      ⟨unitsForType (WellTestColumnType.ofIndex k), 0, false, []⟩ u = 0 := by
    simp [QComboBox.findText, hrest, List.indexOf, List.findIdx_cons]
  have hsame : QComboBox.setCurrentIndex
      ⟨unitsForType (WellTestColumnType.ofIndex k), 0, false, []⟩ 0
      = ⟨unitsForType (WellTestColumnType.ofIndex k), 0, false, []⟩ := by
    simp [QComboBox.setCurrentIndex, hrest]
  unfold presetRow
  simp only [hrule, updateUnitsForType_eq, hfind, le_refl, if_true, unitComboSetCurrentIndex,
    hsame, ne_eq, not_true_eq_false, if_false]
  exact ⟨htype.2.1, htype.2.2.1, trivial, htype.2.2.2⟩

end DataColumnDialog

namespace DataColumnDialog

theorem definitionOfRow_eq (row : ColumnRow) (k : Int) (t : QString) (uc : QComboBox)
    (hk : row.typeCombo.currentIndex = k) (ht : row.typeCombo.currentText = t)
    (hu : row.unitCombo = uc) :
    definitionOfRow row =
      definitionOfRow ⟨row.columnName, ⟨[t], k, true, t⟩, uc, row.requiredCheck, []⟩ := by
  have e : QComboBox.currentText ⟨[t], k, true, t⟩ = t := rfl
  unfold definitionOfRow
  simp only [hk, ht, hu, e]

theorem getColumnDefinitions_at (toLower : QString → QString) (d : DataColumnDialog)
    (i : Nat) (row : ColumnRow) (hrow : d.rows[i]? = some row) :
    (getColumnDefinitions (onLoadPresetClicked toLower d))[i]?
      = some (definitionOfRow (presetRow toLower row)) := by
  simp [getColumnDefinitions, onLoadPresetClicked, List.getElem?_map, hrow]

end DataColumnDialog

/-- C14 (preset for pressure and for unrecognised headers). In a dialog whose type
selectors carry the 18 type labels, for the row of a header whose lower-cased text contains
`压力` or `pressure` or equals `p` and matches none of the serial-number, date, time-of-day
and elapsed-time keywords, `onLoadPresetClicked` followed by `getColumnDefinitions` yields
type `Pressure`, unit `MPa` and the display name `压力\MPa`; for a header that matches no
rule it yields type `Custom` and an empty unit. -/
theorem preset_pressure_and_unmatched (toLower : QString → QString) (d : DataColumnDialog)
    (i : Nat) (row : ColumnRow) (hrow : d.rows[i]? = some row)
    (hitems : row.typeCombo.items = typeNames) :
    (((toLower row.columnName).contains "压力".toList = true ∨
        (toLower row.columnName).contains "pressure".toList = true ∨
        toLower row.columnName = "p".toList) →
      ¬ ((toLower row.columnName).contains "序号".toList = true ∨
        toLower row.columnName = "no".toList) →
      ¬ ((toLower row.columnName).contains "日期".toList = true ∨
        (toLower row.columnName).contains "date".toList = true) →
      ¬ ((toLower row.columnName).contains "时刻".toList = true ∨
        (toLower row.columnName).contains "time".toList = true) →
      ¬ ((toLower row.columnName).contains "时间".toList = true ∨
        toLower row.columnName = "t".toList) →
      (getColumnDefinitions (onLoadPresetClicked toLower d))[i]?
        = some ⟨"压力\\MPa".toList, WellTestColumnType.Pressure, "MPa".toList,
            row.requiredCheck, 3⟩) ∧
    (¬ ((toLower row.columnName).contains "序号".toList = true ∨
        toLower row.columnName = "no".toList) →
      ¬ ((toLower row.columnName).contains "日期".toList = true ∨
        (toLower row.columnName).contains "date".toList = true) →
      ¬ ((toLower row.columnName).contains "时刻".toList = true ∨
        (toLower row.columnName).contains "time".toList = true) →
      ¬ ((toLower row.columnName).contains "时间".toList = true ∨
        toLower row.columnName = "t".toList) →
      ¬ ((toLower row.columnName).contains "压力".toList = true ∨
        (toLower row.columnName).contains "pressure".toList = true ∨
        toLower row.columnName = "p".toList) →
      ¬ ((toLower row.columnName).contains "流量".toList = true ∨
        (toLower row.columnName).contains "flow".toList = true ∨
        toLower row.columnName = "q".toList) →
      ∃ name : QString, (getColumnDefinitions (onLoadPresetClicked toLower d))[i]?
        = some ⟨name, WellTestColumnType.Custom, [], row.requiredCheck, 3⟩) := by
  have hlen : (row.typeCombo.items.length : Int) = 18 := by
    rw [hitems]
    rfl
  rw [getColumnDefinitions_at toLower d i row hrow]
  constructor
  · intro hp h1 h2 h3 h4
    have hrule : presetRule (toLower row.columnName) = (4, "MPa".toList) := by
      simp only [presetRule, if_neg h1, if_neg h2, if_neg h3, if_neg h4, if_pos hp]
    have hres := presetRow_result toLower row 4 "MPa".toList (by decide)
      (by rw [hlen]; decide) hrule ⟨_, rfl⟩
    rw [definitionOfRow_eq _ 4 "压力".toList _ hres.1 (by rw [hres.2.1, hitems]; rfl) hres.2.2.1,
      hres.2.2.2]
    rfl
  · intro h1 h2 h3 h4 h5 h6
    have hrule : presetRule (toLower row.columnName) = (17, "-".toList) := by
      simp only [presetRule, if_neg h1, if_neg h2, if_neg h3, if_neg h4, if_neg h5, if_neg h6]
    have hres := presetRow_result toLower row 17 "-".toList (by decide)
      (by rw [hlen]; decide) hrule ⟨_, rfl⟩
    rw [definitionOfRow_eq _ 17 "自定义".toList _ hres.1 (by rw [hres.2.1, hitems]; rfl)
      hres.2.2.1, hres.2.2.2]
    exact ⟨_, rfl⟩

/-- Witness of C14: the header `压力(MPa)` and the unrecognised header `foo` in a dialog
opened without definitions. -/
theorem preset_pressure_and_unmatched_witness :
    getColumnDefinitions (onLoadPresetClicked QString.asciiLower
        (create ["压力(MPa)".toList, "foo".toList] []))
      = [⟨"压力\\MPa".toList, WellTestColumnType.Pressure, "MPa".toList, false, 3⟩,
         ⟨"自定义".toList, WellTestColumnType.Custom, [], false, 3⟩] ∧
    (getColumnDefinitions (onLoadPresetClicked QString.asciiLower
        (create ["压力(MPa)".toList, "foo".toList] [])))[0]?
      = some ⟨"压力\\MPa".toList, WellTestColumnType.Pressure, "MPa".toList, false, 3⟩ :=
  ⟨by decide,
   (preset_pressure_and_unmatched QString.asciiLower
      (create ["压力(MPa)".toList, "foo".toList] []) 0
      (setupColumnRow "压力(MPa)".toList
        (some ⟨"压力(MPa)".toList, WellTestColumnType.Custom, [], false, 3⟩))
      (by decide) (by decide)).1 (by decide) (by decide) (by decide) (by decide) (by decide)⟩

end WT1227C
